import Mathlib

/-!
Verification of the Air-Cargo planning engine (`my_air_cargo_problems.py`,
`my_planning_graph.py`) against its natural-language specification.

The Python source is shallowly embedded: ground literals are the strings
produced by `expr("At({}, {})".format(...))` etc.; Python lists become Lean
lists, Python sets become duplicate-free lists in insertion order with
explicit set operations (`linsert`, `lunion`, `lsubset`, `lseteq`);
operations that can raise (`list.remove` on a missing element, `dict`
lookup on a missing key) return `Option`.  `encode_state` / `decode_state`
live in `lp_utils.py`, which is not part of the sources; they are modelled
from the spec (section 4.1).
-/

/-- Ground literal: the string form of an `expr` atom, e.g. `At(C1, SFO)`. -/
abbrev Lit := String

/-- String of `At({}, {})`.format(x, y). -/
def atL (x y : Lit) : Lit := "At(" ++ x ++ ", " ++ y ++ ")"

/-- String of `In({}, {})`.format(x, y). -/
def inL (x y : Lit) : Lit := "In(" ++ x ++ ", " ++ y ++ ")"

/-- `aimacode.planning.Action` (embedded as `PlanAction`): a ground STRIPS action (name with arguments
baked into the string, positive/negative preconditions, add/remove effects). -/
structure PlanAction where
  name : Lit
  precond_pos : List Lit
  precond_neg : List Lit
  effect_add : List Lit
  effect_rem : List Lit
deriving DecidableEq

/-- `lp_utils.FluentState`: positive and negative literal lists. -/
structure FluentState where
  pos : List Lit
  neg : List Lit
deriving DecidableEq

/-- Modelled from the spec: `lp_utils.decode_state` is not under `src/`;
spec 4.1 says `decode(StateId, stateMap)` produces
`pos = {stateMap[i] | bit i = 1}`, `neg = {stateMap[i] | bit i = 0}`. -/
def decode_state (state : List Bool) (state_map : List Lit) : FluentState :=
  { pos := (state_map.zip state).filterMap (fun lb => if lb.2 then some lb.1 else none)
    neg := (state_map.zip state).filterMap (fun lb => if lb.2 then none else some lb.1) }

/-- Modelled from the spec: `lp_utils.encode_state` is not under `src/`;
spec 4.1 says `encode(FluentState, stateMap)` sets bit `i` iff
`stateMap[i] ∈ pos`. -/
def encode_state (fs : FluentState) (state_map : List Lit) : List Bool :=
  state_map.map (fun l => fs.pos.contains l)

/-- `load_actions` in `AirCargoProblem.get_actions`: for every
(cargo, plane, airport), positive preconditions `At(c,a), At(p,a)`,
add `In(c,p)`, remove `At(c,p)` (as in the source). -/
def load_actions (cargos planes airports : List Lit) : List PlanAction :=
  cargos.bind (fun c => planes.bind (fun p => airports.map (fun a =>
    { name := "Load(" ++ c ++ ", " ++ p ++ ", " ++ a ++ ")"
      precond_pos := [atL c a, atL p a]
      precond_neg := []
      effect_add := [inL c p]
      effect_rem := [atL c p] })))

/-- `unload_actions`: positive preconditions `In(c,p), At(p,a)`,
add `At(c,a)`, remove `In(c,a)` (as in the source). -/
def unload_actions (cargos planes airports : List Lit) : List PlanAction :=
  cargos.bind (fun c => planes.bind (fun p => airports.map (fun a =>
    { name := "Unload(" ++ c ++ ", " ++ p ++ ", " ++ a ++ ")"
      precond_pos := [inL c p, atL p a]
      precond_neg := []
      effect_add := [atL c a]
      effect_rem := [inL c a] })))

/-- `fly_actions`: for every ordered pair of distinct airports and plane,
positive precondition `At(p,fr)`, add `At(p,to)`, remove `At(p,fr)`. -/
def fly_actions (planes airports : List Lit) : List PlanAction :=
  airports.bind (fun fr => airports.bind (fun dest =>
    if fr ≠ dest then
      planes.map (fun p =>
        { name := "Fly(" ++ p ++ ", " ++ fr ++ ", " ++ dest ++ ")"
          precond_pos := [atL p fr]
          precond_neg := []
          effect_add := [atL p dest]
          effect_rem := [atL p fr] })
    else []))

/-- `AirCargoProblem.get_actions`: loads, then unloads, then flys. -/
def get_actions (cargos planes airports : List Lit) : List PlanAction :=
  load_actions cargos planes airports ++ unload_actions cargos planes airports
    ++ fly_actions planes airports

/-- `AirCargoProblem`: state map is `initial.pos + initial.neg`, the initial
state id is the encoding of the initial fluent state, and the ground action
catalogue is computed once at construction. -/
structure AirCargoProblem where
  cargos : List Lit
  planes : List Lit
  airports : List Lit
  state_map : List Lit
  initial_state_TF : List Bool
  goal : List Lit
  actions_list : List PlanAction

/-- `AirCargoProblem.__init__`. -/
def mkAirCargoProblem (cargos planes airports : List Lit)
    (initialPos initialNeg : List Lit) (goal : List Lit) : AirCargoProblem :=
  let state_map := initialPos ++ initialNeg
  { cargos := cargos, planes := planes, airports := airports
    state_map := state_map
    initial_state_TF := encode_state ⟨initialPos, initialNeg⟩ state_map
    goal := goal
    actions_list := get_actions cargos planes airports }

/-- The applicability test in `AirCargoProblem.actions`: both `for`/`break`
loops succeed iff every positive precondition is in `pos` and every negative
precondition is in `neg`. -/
def applicable (st : FluentState) (a : PlanAction) : Bool :=
  a.precond_pos.all (fun pp => st.pos.contains pp) &&
  a.precond_neg.all (fun pn => st.neg.contains pn)

/-- `AirCargoProblem.actions`: scan the catalogue in order, appending every
applicable action. -/
def AirCargoProblem.actions (p : AirCargoProblem) (state : List Bool) : List PlanAction :=
  let st := decode_state state p.state_map
  p.actions_list.foldl
    (fun possible_actions action =>
      if applicable st action then possible_actions ++ [action] else possible_actions)
    []

/-- `AirCargoProblem.result`: decode, then for each remove-effect
`state.pos.remove(l)` (raises, i.e. `none`, if `l ∉ pos`) and append `l` to
`neg`; then for each add-effect append to `pos` and `state.neg.remove(l)`
(raises if `l ∉ neg`); finally re-encode. -/
def AirCargoProblem.result (p : AirCargoProblem) (state : List Bool) (action : PlanAction) :
    Option (List Bool) := do
  let st := decode_state state p.state_map
  let st ← action.effect_rem.foldlM
    (fun (st : FluentState) l =>
      if st.pos.contains l then some ⟨st.pos.erase l, st.neg ++ [l]⟩ else none) st
  let st ← action.effect_add.foldlM
    (fun (st : FluentState) l =>
      if st.neg.contains l then some ⟨st.pos ++ [l], st.neg.erase l⟩ else none) st
  return encode_state st p.state_map

/-- `AirCargoProblem.h_ignore_preconditions`: count goal literals missing
from the decoded positive fluents. -/
def AirCargoProblem.h_ignore_preconditions (p : AirCargoProblem) (state : List Bool) : Nat :=
  let node_state := (decode_state state p.state_map).pos
  p.goal.foldl (fun count g => if node_state.contains g then count else count + 1) 0

/-- `air_cargo_p1`. -/
def air_cargo_p1 : AirCargoProblem :=
  mkAirCargoProblem ["C1", "C2"] ["P1", "P2"] ["JFK", "SFO"]
    [atL "C1" "SFO", atL "C2" "JFK", atL "P1" "SFO", atL "P2" "JFK"]
    [atL "C2" "SFO", inL "C2" "P1", inL "C2" "P2", atL "C1" "JFK",
     inL "C1" "P1", inL "C1" "P2", atL "P1" "JFK", atL "P2" "SFO"]
    [atL "C1" "JFK", atL "C2" "SFO"]

/-- The concrete catalogue action `Load(C1, P1, SFO)` of `air_cargo_p1`. -/
def loadC1P1SFO : PlanAction :=
  { name := "Load(C1, P1, SFO)"
    precond_pos := [atL "C1" "SFO", atL "P1" "SFO"]
    precond_neg := []
    effect_add := [inL "C1" "P1"]
    effect_rem := [atL "C1" "P1"] }

/-- The concrete catalogue action `Load(C2, P2, JFK)` of `air_cargo_p1`. -/
def loadC2P2JFK : PlanAction :=
  { name := "Load(C2, P2, JFK)"
    precond_pos := [atL "C2" "JFK", atL "P2" "JFK"]
    precond_neg := []
    effect_add := [inL "C2" "P2"]
    effect_rem := [atL "C2" "P2"] }

/-- The concrete catalogue action `Fly(P2, JFK, SFO)` of `air_cargo_p1`. -/
def flyP2JFKSFO : PlanAction :=
  { name := "Fly(P2, JFK, SFO)"
    precond_pos := [atL "P2" "JFK"]
    precond_neg := []
    effect_add := [atL "P2" "SFO"]
    effect_rem := [atL "P2" "JFK"] }

/-- The concrete catalogue action `Fly(P1, SFO, JFK)` of `air_cargo_p1`. -/
def flyP1SFOJFK : PlanAction :=
  { name := "Fly(P1, SFO, JFK)"
    precond_pos := [atL "P1" "SFO"]
    precond_neg := []
    effect_add := [atL "P1" "JFK"]
    effect_rem := [atL "P1" "SFO"] }

lemma foldl_append_filter {α : Type} (f : α → Bool) :
    ∀ (l acc : List α),
      l.foldl (fun acc a => if f a then acc ++ [a] else acc) acc = acc ++ l.filter f := by
  intro l
  induction l with
  | nil => intro acc; simp
  | cons a l ih =>
      intro acc
      rcases h : f a with _ | _ <;>
        simp [List.foldl_cons, List.filter_cons, h, ih]

lemma foldl_count_filter {α : Type} (f : α → Bool) :
    ∀ (l : List α) (acc : Nat),
      l.foldl (fun count a => if f a then count else count + 1) acc =
        acc + (l.filter (fun a => ! f a)).length := by
  intro l
  induction l with
  | nil => intro acc; simp
  | cons a l ih =>
      intro acc
      rcases h : f a with _ | _ <;>
        simp [List.foldl_cons, List.filter_cons, h, ih, Nat.add_comm,
          Nat.add_assoc, Nat.add_left_comm]

/-- C1: the claim asserts that `result(s, a)` never panics for applicable `a`
and that `result(initial, Load(C1,P1,SFO))` succeeds on `air_cargo_p1`.
The code violates this: `Load(C1, P1, SFO)` is applicable in the initial
state, yet its remove-effect `At(C1, P1)` is absent from the decoded `pos`
list (it is not even in the state map), so `state.pos.remove(...)` raises
`ValueError` — embedded as `result` returning `none`. -/
theorem claim_C1_result_raises :
    loadC1P1SFO ∈ air_cargo_p1.actions air_cargo_p1.initial_state_TF ∧
    air_cargo_p1.result air_cargo_p1.initial_state_TF loadC1P1SFO = none := by
  constructor
  · decide
  · decide

/-- C3: `actions(s)` returns exactly the catalogue actions whose positive
preconditions are all in `decode(s).pos` and whose negative preconditions are
all in `decode(s).neg`, in catalogue order; on `air_cargo_p1`'s initial state
this is `Load(C1,P1,SFO)`, `Load(C2,P2,JFK)`, `Fly(P2,JFK,SFO)`,
`Fly(P1,SFO,JFK)` and nothing else (in particular no Unload action). -/
theorem claim_C3_actions_applicable :
    (∀ (p : AirCargoProblem) (s : List Bool),
      p.actions s = p.actions_list.filter
        (fun a => applicable (decode_state s p.state_map) a)) ∧
    air_cargo_p1.actions air_cargo_p1.initial_state_TF =
      [loadC1P1SFO, loadC2P2JFK, flyP2JFKSFO, flyP1SFOJFK] := by
  constructor
  · intro p s
    unfold AirCargoProblem.actions
    rw [foldl_append_filter]
    simp
  · decide

/-- C4: `h_ignore_preconditions` counts the goal literals not contained in
`decode(state).pos`; on the `air_cargo_p1` initial state it returns 2. -/
theorem claim_C4_ignore_preconditions :
    (∀ (p : AirCargoProblem) (s : List Bool),
      p.h_ignore_preconditions s =
        (p.goal.filter (fun g => ! (decode_state s p.state_map).pos.contains g)).length) ∧
    air_cargo_p1.h_ignore_preconditions air_cargo_p1.initial_state_TF = 2 := by
  constructor
  · intro p s
    unfold AirCargoProblem.h_ignore_preconditions
    rw [foldl_count_filter]
    simp
  · decide

/-- Python `set.add`: append the element unless already present.  Python
sets are modelled throughout as duplicate-free lists in insertion order (the
iteration order of a CPython set is unspecified; insertion order is one
faithful rendering). -/
def linsert {α : Type} [DecidableEq α] (xs : List α) (x : α) : List α :=
  if x ∈ xs then xs else xs ++ [x]

/-- Python `set.union` / repeated `add`. -/
def lunion {α : Type} [DecidableEq α] (xs ys : List α) : List α :=
  ys.foldl linsert xs

/-- Python `set.issubset`. -/
def lsubset {α : Type} [DecidableEq α] (xs ys : List α) : Bool :=
  xs.all (fun x => decide (x ∈ ys))

/-- Python `==` on sets: mutual containment. -/
def lseteq {α : Type} [DecidableEq α] (xs ys : List α) : Bool :=
  lsubset xs ys && lsubset ys xs

lemma mem_linsert {α : Type} [DecidableEq α] (xs : List α) (x y : α) :
    y ∈ linsert xs x ↔ y = x ∨ y ∈ xs := by
  unfold linsert
  by_cases h : x ∈ xs
  · rw [if_pos h]
    constructor
    · exact fun hy => Or.inr hy
    · rintro (rfl | hy)
      · exact h
      · exact hy
  · rw [if_neg h]
    simp [List.mem_append, or_comm]

lemma mem_lunion {α : Type} [DecidableEq α] (ys xs : List α) (y : α) :
    y ∈ lunion xs ys ↔ y ∈ xs ∨ y ∈ ys := by
  induction ys generalizing xs with
  | nil => simp [lunion]
  | cons z zs ih =>
      simp only [lunion, List.foldl_cons] at ih ⊢
      rw [ih (linsert xs z), mem_linsert]
      simp only [List.mem_cons]
      tauto

lemma lsubset_iff {α : Type} [DecidableEq α] (xs ys : List α) :
    lsubset xs ys = true ↔ ∀ x ∈ xs, x ∈ ys := by
  simp [lsubset]

lemma lseteq_iff {α : Type} [DecidableEq α] (xs ys : List α) :
    lseteq xs ys = true ↔ ∀ x, x ∈ xs ↔ x ∈ ys := by
  simp only [lseteq, Bool.and_eq_true, lsubset_iff]
  constructor
  · intro ⟨h1, h2⟩ x
    exact ⟨h1 x, h2 x⟩
  · intro h
    exact ⟨fun x hx => (h x).1 hx, fun x hx => (h x).2 hx⟩

/-- `PgNode_s`: an S-level planning-graph node — a literal symbol plus
polarity flag.  Equality and hashing compare only symbol and polarity. -/
structure PgNode_s where
  symbol : Lit
  is_pos : Bool
deriving DecidableEq

/-- `PgNode_a.precond_s_nodes`: precondition literals as S-nodes (positive
preconditions as positive nodes, negative preconditions as negative
nodes). -/
def precond_s_nodes (a : PlanAction) : List PgNode_s :=
  (a.precond_pos.map (fun p => PgNode_s.mk p true) ++
    a.precond_neg.map (fun p => PgNode_s.mk p false)).foldl linsert []

/-- `PgNode_a.effect_s_nodes`: effect literals as S-nodes (add effects as
positive nodes, remove effects as negative nodes). -/
def effect_s_nodes (a : PlanAction) : List PgNode_s :=
  (a.effect_add.map (fun e => PgNode_s.mk e true) ++
    a.effect_rem.map (fun e => PgNode_s.mk e false)).foldl linsert []

lemma mem_foldl_linsert {α : Type} [DecidableEq α] :
    ∀ (l acc : List α) (x : α), x ∈ l.foldl linsert acc ↔ x ∈ acc ∨ x ∈ l := by
  intro l
  induction l with
  | nil => simp
  | cons y ys ih =>
      intro acc x
      simp only [List.foldl_cons, ih (linsert acc y) x, mem_linsert, List.mem_cons]
      tauto

lemma mem_precond_s_nodes (a : PlanAction) (n : PgNode_s) :
    n ∈ precond_s_nodes a ↔
      (n.is_pos = true ∧ n.symbol ∈ a.precond_pos) ∨
      (n.is_pos = false ∧ n.symbol ∈ a.precond_neg) := by
  unfold precond_s_nodes
  rw [mem_foldl_linsert]
  simp only [List.not_mem_nil, false_or, List.mem_append, List.mem_map]
  constructor
  · rintro (⟨p, hp, rfl⟩ | ⟨p, hp, rfl⟩)
    · exact Or.inl ⟨rfl, hp⟩
    · exact Or.inr ⟨rfl, hp⟩
  · rcases n with ⟨sym, pol⟩
    rintro (⟨h, hp⟩ | ⟨h, hp⟩) <;> simp only at h <;> subst h
    · exact Or.inl ⟨sym, hp, rfl⟩
    · exact Or.inr ⟨sym, hp, rfl⟩

lemma mem_effect_s_nodes (a : PlanAction) (n : PgNode_s) :
    n ∈ effect_s_nodes a ↔
      (n.is_pos = true ∧ n.symbol ∈ a.effect_add) ∨
      (n.is_pos = false ∧ n.symbol ∈ a.effect_rem) := by
  unfold effect_s_nodes
  rw [mem_foldl_linsert]
  simp only [List.not_mem_nil, false_or, List.mem_append, List.mem_map]
  constructor
  · rintro (⟨p, hp, rfl⟩ | ⟨p, hp, rfl⟩)
    · exact Or.inl ⟨rfl, hp⟩
    · exact Or.inr ⟨rfl, hp⟩
  · rcases n with ⟨sym, pol⟩
    rintro (⟨h, hp⟩ | ⟨h, hp⟩) <;> simp only at h <;> subst h
    · exact Or.inl ⟨sym, hp, rfl⟩
    · exact Or.inr ⟨sym, hp, rfl⟩

/-- `PgNode_a.is_persistent`: `self.prenodes == self.effnodes` (set
equality). -/
def is_persistent (a : PlanAction) : Bool :=
  lseteq (precond_s_nodes a) (effect_s_nodes a)

/-- `PlanningGraph.noop_actions`: for each state-map fluent, a positive
no-op (requires and re-adds the literal) and a negative no-op (requires the
literal negatively and re-removes it). -/
def noop_actions (literal_list : List Lit) : List PlanAction :=
  literal_list.bind (fun fluent =>
    [ { name := "Noop_pos(" ++ fluent ++ ")"
        precond_pos := [fluent], precond_neg := []
        effect_add := [fluent], effect_rem := [] },
      { name := "Noop_neg(" ++ fluent ++ ")"
        precond_pos := [], precond_neg := [fluent]
        effect_add := [], effect_rem := [fluent] } ])

lemma is_persistent_false_of_effect_rem (a : PlanAction) (h1 : a.precond_neg = [])
    (l : Lit) (h2 : l ∈ a.effect_rem) : is_persistent a = false := by
  unfold is_persistent
  rw [Bool.eq_false_iff]
  intro heq
  have hmem : PgNode_s.mk l false ∈ effect_s_nodes a :=
    (mem_effect_s_nodes a _).2 (Or.inr ⟨rfl, h2⟩)
  have := ((lseteq_iff _ _).1 heq (PgNode_s.mk l false)).2 hmem
  rcases (mem_precond_s_nodes a _).1 this with ⟨h, _⟩ | ⟨_, hp⟩
  · simp at h
  · rw [h1] at hp
    simp at hp

/-- C9: an action node's persistence flag is true exactly when its
precondition S-node set equals its effect S-node set (as sets); every
synthesized `Noop_pos`/`Noop_neg` node is persistent, and every Load,
Unload and Fly node is non-persistent. -/
theorem claim_C9_persistence :
    (∀ a : PlanAction, is_persistent a = true ↔
      (∀ n, n ∈ precond_s_nodes a ↔ n ∈ effect_s_nodes a)) ∧
    (∀ (ll : List Lit), ∀ a ∈ noop_actions ll, is_persistent a = true) ∧
    (∀ (cargos planes airports : List Lit),
      ∀ a ∈ load_actions cargos planes airports, is_persistent a = false) ∧
    (∀ (cargos planes airports : List Lit),
      ∀ a ∈ unload_actions cargos planes airports, is_persistent a = false) ∧
    (∀ (planes airports : List Lit),
      ∀ a ∈ fly_actions planes airports, is_persistent a = false) := by
  refine ⟨?_, ?_, ?_, ?_, ?_⟩
  · intro a
    exact lseteq_iff _ _
  · intro ll a ha
    simp only [noop_actions, List.mem_bind, List.mem_cons,
      List.mem_singleton, List.not_mem_nil, or_false] at ha
    obtain ⟨l, _, h⟩ := ha
    rcases h with h | h <;>
      (subst h;
       exact (lseteq_iff _ _).2 (by
         intro n
         rw [mem_precond_s_nodes, mem_effect_s_nodes]))
  · intro cargos planes airports a ha
    simp only [load_actions, List.mem_bind, List.mem_map] at ha
    obtain ⟨c, _, p, _, ap, _, rfl⟩ := ha
    exact is_persistent_false_of_effect_rem _ rfl (atL c p) (by simp)
  · intro cargos planes airports a ha
    simp only [unload_actions, List.mem_bind, List.mem_map] at ha
    obtain ⟨c, _, p, _, ap, _, rfl⟩ := ha
    exact is_persistent_false_of_effect_rem _ rfl (inL c ap) (by simp)
  · intro planes airports a ha
    simp only [fly_actions, List.mem_bind] at ha
    obtain ⟨fr, _, dest, _, hin⟩ := ha
    by_cases hne : fr = dest
    · subst hne; simp at hin
    · rw [if_pos hne] at hin
      simp only [List.mem_map] at hin
      obtain ⟨p, _, rfl⟩ := hin
      exact is_persistent_false_of_effect_rem _ rfl (atL p fr) (by simp)

/-- Witness for C9 at concrete inputs: the positive no-op for `At(C1, SFO)`
is persistent and `Load(C1, P1, SFO)` is not. -/
theorem claim_C9_persistence_witness :
    is_persistent
      { name := "Noop_pos(At(C1, SFO))"
        precond_pos := [atL "C1" "SFO"], precond_neg := []
        effect_add := [atL "C1" "SFO"], effect_rem := [] } = true ∧
    is_persistent loadC1P1SFO = false :=
  ⟨claim_C9_persistence.2.1 [atL "C1" "SFO"] _ (by decide),
   claim_C9_persistence.2.2.1 ["C1"] ["P1"] ["SFO"] loadC1P1SFO (by decide)⟩

/-- Key of the `precond_map` dict in `PlanningGraph.precond_to_action`:
`(l, true)` stands for the expression `l` itself, `(l, false)` for `~l`
(an S-node's `literal` attribute is `symbol` when positive, `~symbol` when
negative). -/
abbrev PrecondKey := Lit × Bool

/-- The dict keys `precond_map[expr]` / `precond_map[~expr]`, initialised
for every state-map literal. -/
def precond_keys (state_map : List Lit) : List PrecondKey :=
  state_map.bind (fun l => [(l, true), (l, false)])

/-- Does the action list the key's literal as a (signed) precondition? -/
def hasPrecond (a : PlanAction) (k : PrecondKey) : Bool :=
  if k.2 then a.precond_pos.contains k.1 else a.precond_neg.contains k.1

/-- `PlanningGraph.precond_to_action`: build the literal-to-actions dict.
The Python loop `precond_map[precond].add(action)` raises `KeyError`
(`none` here) as soon as some action has a precondition outside the state
map; otherwise each key maps to the set of actions requiring it. -/
def precond_to_action (state_map : List Lit) (actions : List PlanAction) :
    Option (List (PrecondKey × List PlanAction)) :=
  if actions.all (fun a => a.precond_pos.all (fun l => state_map.contains l) &&
                           a.precond_neg.all (fun l => state_map.contains l)) then
    some ((precond_keys state_map).map
      (fun k => (k, (actions.filter (fun a => hasPrecond a k)).foldl linsert [])))
  else none

/-- Dict lookup `actions_for_preconds[literal]`: `none` models `KeyError`. -/
def lookupPre (m : List (PrecondKey × List PlanAction)) (k : PrecondKey) :
    Option (List PlanAction) :=
  (m.find? (fun e => e.1 == k)).map (fun e => e.2)

/-- The three attributes the `PlanningGraph` constructor attaches to the
problem object on first construction (`problem.all_actions`,
`problem.actions_for_preconds`, `problem.goal_nodes`). -/
structure ProblemCache where
  all_actions : List PlanAction
  actions_for_preconds : List (PrecondKey × List PlanAction)
  goal_nodes : List PgNode_s
deriving DecidableEq

/-- The cache computation performed inside `PlanningGraph.__init__` when the
problem does not yet carry the attributes: domain actions plus no-ops, the
precondition index over them, and the positive S-nodes of the goals. -/
def mkCache (p : AirCargoProblem) : Option ProblemCache :=
  match precond_to_action p.state_map (p.actions_list ++ noop_actions p.state_map) with
  | none => none
  | some m =>
      some { all_actions := p.actions_list ++ noop_actions p.state_map
             actions_for_preconds := m
             goal_nodes := (p.goal.map (fun g => PgNode_s.mk g true)).foldl linsert [] }

/-- A planning graph as the builder leaves it: S-levels and A-levels plus
one mutex relation per level, stored as a set of ordered pairs — `(a, b)`
recorded means `b ∈ a.mutex`.  `s_mutex[0]` is empty: no mutexes at `S0`. -/
structure PlanningGraph where
  s_levels : List (List PgNode_s)
  a_levels : List (List PlanAction)
  s_mutex : List (List (PgNode_s × PgNode_s))
  a_mutex : List (List (PlanAction × PlanAction))
deriving DecidableEq

/-- Candidate actions of an A-level: the union over the level's S-nodes of
the precondition-index entries for their literals (`KeyError` = `none` when
a node's literal is not a key, which happens for effect literals outside the
state map). -/
def candidate_actions (idx : List (PrecondKey × List PlanAction))
    (s_level : List PgNode_s) : Option (List PlanAction) :=
  if s_level.all (fun s => (lookupPre idx (s.symbol, s.is_pos)).isSome) then
    some (s_level.foldl
      (fun acc s => lunion acc ((lookupPre idx (s.symbol, s.is_pos)).getD [])) [])
  else none

/-- `PlanningGraph.add_action_level`, standard branch: an action node is
kept as soon as at least one of its precondition S-nodes is present in the
level (the inner `for matching_s_node in s_nodes` loop adds the node on the
first match). -/
def add_action_level_full (idx : List (PrecondKey × List PlanAction))
    (s_level : List PgNode_s) : Option (List PlanAction) :=
  match candidate_actions idx s_level with
  | none => none
  | some possible_actions =>
      some (possible_actions.filter
        (fun a => s_level.any (fun s => decide (s ∈ precond_s_nodes a))))

/-- `PlanningGraph.add_action_level`, short-circuit branch: every candidate
action is kept. -/
def add_action_level_shortcut (idx : List (PrecondKey × List PlanAction))
    (s_level : List PgNode_s) : Option (List PlanAction) :=
  candidate_actions idx s_level

/-- Parents of an A-node in its level: the level's S-nodes matching its
precondition S-nodes (the pairs linked in `add_action_level`). -/
def a_parents (s_level : List PgNode_s) (a : PlanAction) : List PgNode_s :=
  s_level.filter (fun s => decide (s ∈ precond_s_nodes a))

/-- Parents of an S-node in level `k+1`: the A-nodes of level `k` whose
effect S-nodes contain it (the pairs linked in `add_literal_level`). -/
def s_parents (a_level : List PlanAction) (s : PgNode_s) : List PlanAction :=
  a_level.filter (fun a => decide (s ∈ effect_s_nodes a))

/-- `PlanningGraph.add_literal_level`: the next S-level is the union of the
effect S-nodes of the previous A-level. -/
def add_literal_level (a_level : List PlanAction) : List PgNode_s :=
  a_level.foldl (fun s_nodes a => lunion s_nodes (effect_s_nodes a)) []

/-- `mutexify`: record the pair in both nodes' mutex sets. -/
def mutexify {α : Type} [DecidableEq α] (m : List (α × α)) (n1 n2 : α) :
    List (α × α) :=
  linsert (linsert m (n1, n2)) (n2, n1)

/-- The unordered pairs visited by
`for i, n1 in enumerate(nodelist[:-1]): for n2 in nodelist[i+1:]`. -/
def pairs_of {α : Type} : List α → List (α × α)
  | [] => []
  | x :: xs => xs.map (fun y => (x, y)) ++ pairs_of xs

/-- `PlanningGraph.serialize_actions`: on a serial graph, two
non-persistent actions are mutex. -/
def serialize_actions (serial : Bool) (n1 n2 : PlanAction) : Bool :=
  if !serial then false
  else if is_persistent n1 || is_persistent n2 then false
  else true

/-- `PlanningGraph.inconsistent_effects_mutex`: some literal is added by one
action and removed by the other. -/
def inconsistent_effects_mutex (n1 n2 : PlanAction) : Bool :=
  n1.effect_add.any (fun x => n2.effect_rem.contains x) ||
  n2.effect_add.any (fun x => n1.effect_rem.contains x)

/-- `PlanningGraph.interfere_with`: an effect of `a1` contradicts a
precondition of `a2`. -/
def interfere_with (a1 a2 : PlanAction) : Bool :=
  a1.effect_add.any (fun x => a2.precond_neg.any (fun y => x == y)) ||
  a1.effect_rem.any (fun x => a2.precond_pos.any (fun y => x == y))

/-- `PlanningGraph.interference_mutex`. -/
def interference_mutex (n1 n2 : PlanAction) : Bool :=
  interfere_with n2 n1 || interfere_with n1 n2

/-- `PlanningGraph.competing_needs_mutex`: some precondition S-node of one
action is mutex (in the current S-level relation) with some precondition
S-node of the other. -/
def competing_needs_mutex (s_mutex_k : List (PgNode_s × PgNode_s))
    (s_level_k : List PgNode_s) (n1 n2 : PlanAction) : Bool :=
  (a_parents s_level_k n1).any (fun s1 =>
    (a_parents s_level_k n2).any (fun s2 => decide ((s1, s2) ∈ s_mutex_k)))

/-- The disjunction tested by `PlanningGraph.update_a_mutex` for each pair. -/
def a_mutex_cond (serial : Bool) (s_mutex_k : List (PgNode_s × PgNode_s))
    (s_level_k : List PgNode_s) (n1 n2 : PlanAction) : Bool :=
  serialize_actions serial n1 n2 || inconsistent_effects_mutex n1 n2 ||
  interference_mutex n1 n2 || competing_needs_mutex s_mutex_k s_level_k n1 n2

/-- `PlanningGraph.update_a_mutex`: mutexify every qualifying unordered pair
of the A-level. -/
def update_a_mutex (serial : Bool) (s_mutex_k : List (PgNode_s × PgNode_s))
    (s_level_k : List PgNode_s) (nodeset : List PlanAction) :
    List (PlanAction × PlanAction) :=
  (pairs_of nodeset).foldl
    (fun m pr =>
      if a_mutex_cond serial s_mutex_k s_level_k pr.1 pr.2 then mutexify m pr.1 pr.2
      else m)
    []

/-- `PlanningGraph.negation_mutex`: same literal, opposite polarity. -/
def negation_mutex (n1 n2 : PgNode_s) : Bool :=
  n1.symbol == n2.symbol && n1.is_pos != n2.is_pos

/-- `PlanningGraph.inconsistent_support_mutex`: every pair of supporting
actions is mutex in the previous A-level relation. -/
def inconsistent_support_mutex (a_mutex_k : List (PlanAction × PlanAction))
    (a_level_k : List PlanAction) (n1 n2 : PgNode_s) : Bool :=
  (s_parents a_level_k n1).all (fun a1 =>
    (s_parents a_level_k n2).all (fun a2 => decide ((a1, a2) ∈ a_mutex_k)))

/-- `PlanningGraph.update_s_mutex`. -/
def update_s_mutex (a_mutex_k : List (PlanAction × PlanAction))
    (a_level_k : List PlanAction) (nodeset : List PgNode_s) :
    List (PgNode_s × PgNode_s) :=
  (pairs_of nodeset).foldl
    (fun m pr =>
      if negation_mutex pr.1 pr.2 ||
          inconsistent_support_mutex a_mutex_k a_level_k pr.1 pr.2 then
        mutexify m pr.1 pr.2
      else m)
    []

/-- The `while not leveled` loop of `PlanningGraph.create_graph`, with
explicit fuel (`none` when fuel runs out or a dict lookup raises).  Each
iteration appends an A-level (and its mutex relation unless short-circuit)
and an S-level (ditto), then stops if the new S-level equals the previous
one as a set, or — in short-circuit mode — if all goal nodes are present. -/
def create_graph_loop (serial short : Bool)
    (idx : List (PrecondKey × List PlanAction)) (goal_nodes : List PgNode_s) :
    Nat → List PgNode_s → List (PgNode_s × PgNode_s) → PlanningGraph →
    Option PlanningGraph
  | 0, _, _, _ => none
  | fuel + 1, prev, prev_smutex, g =>
      match (if short then add_action_level_shortcut idx prev
             else add_action_level_full idx prev) with
      | none => none
      | some ak =>
          let amut := if short then [] else update_a_mutex serial prev_smutex prev ak
          let snext := add_literal_level ak
          let smut := if short then [] else update_s_mutex amut ak snext
          let g' : PlanningGraph :=
            { s_levels := g.s_levels ++ [snext], a_levels := g.a_levels ++ [ak]
              s_mutex := g.s_mutex ++ [smut], a_mutex := g.a_mutex ++ [amut] }
          if lseteq snext prev then some g'
          else if short && lsubset goal_nodes snext then some g'
          else create_graph_loop serial short idx goal_nodes fuel snext smut g'

/-- `S0`: positive S-nodes for the decoded positive fluents, negative ones
for the negative fluents. -/
def s0_nodes (fs : FluentState) : List PgNode_s :=
  (fs.pos.map (fun l => PgNode_s.mk l true) ++
    fs.neg.map (fun l => PgNode_s.mk l false)).foldl linsert []

/-- `PlanningGraph.create_graph` from a decoded fluent state. -/
def create_graph (serial short : Bool)
    (idx : List (PrecondKey × List PlanAction)) (goal_nodes : List PgNode_s)
    (fs : FluentState) (fuel : Nat) : Option PlanningGraph :=
  create_graph_loop serial short idx goal_nodes fuel (s0_nodes fs) []
    { s_levels := [s0_nodes fs], a_levels := [], s_mutex := [[]], a_mutex := [] }

/-- `PlanningGraph.__init__`: decode the state, attach (or reuse) the cached
problem attributes, and build the graph. -/
def mkPlanningGraph (p : AirCargoProblem) (cache : Option ProblemCache)
    (state : List Bool) (serial short : Bool) (fuel : Nat) :
    Option (ProblemCache × PlanningGraph) :=
  let fs := decode_state state p.state_map
  match (match cache with
         | some c => some c
         | none => mkCache p) with
  | none => none
  | some c =>
      match create_graph serial short c.actions_for_preconds c.goal_nodes fs fuel with
      | none => none
      | some g => some (c, g)

/-- `sys.maxsize` on a 64-bit build. -/
def maxsize : Nat := 2 ^ 63 - 1

/-- The level scan of `PlanningGraph.h_levelsum`: at level `i` every
still-missing goal node found in the level adds `i` to the sum and is
removed from the pending set; the scan breaks once all goals are found. -/
def h_levelsum_loop :
    List (List PgNode_s) → Nat → List PgNode_s → Nat → Nat → Nat → Nat × Nat
  | [], _, _, _, level_sum, goal_count => (level_sum, goal_count)
  | s_nodes :: rest, i, goal_states, total, level_sum, goal_count =>
      let found := s_nodes.filter (fun x => decide (x ∈ goal_states))
      let level_sum := level_sum + found.length * i
      let goal_count := goal_count + found.length
      let goal_states := goal_states.filter (fun x => decide (x ∉ found))
      if goal_count = total then (level_sum, goal_count)
      else h_levelsum_loop rest (i + 1) goal_states total level_sum goal_count

/-- `PlanningGraph.h_levelsum`: returns the accumulated sum when every goal
was found, `sys.maxsize` otherwise. -/
def h_levelsum (s_levels : List (List PgNode_s)) (goal : List Lit) : Nat :=
  let goal_states := (goal.map (fun g => PgNode_s.mk g true)).foldl linsert []
  let total := goal.length
  let r := h_levelsum_loop s_levels 0 goal_states total 0 0
  if r.2 = total then r.1 else maxsize

/-- The concrete catalogue action `Load(C2, P1, JFK)` of `air_cargo_p1`. -/
def loadC2P1JFK : PlanAction :=
  { name := "Load(C2, P1, JFK)"
    precond_pos := [atL "C2" "JFK", atL "P1" "JFK"]
    precond_neg := []
    effect_add := [inL "C2" "P1"]
    effect_rem := [atL "C2" "P1"] }

/-- The attributes the first `PlanningGraph` attaches to `air_cargo_p1`. -/
def p1cache : ProblemCache := (mkCache air_cargo_p1).getD ⟨[], [], []⟩

/-- `S0` of the planning graph for `air_cargo_p1`'s initial state. -/
def s0p1 : List PgNode_s :=
  s0_nodes (decode_state air_cargo_p1.initial_state_TF air_cargo_p1.state_map)

/-- C2: the claim says an action node is included in A-level `k` only if
every one of its precondition S-nodes is present in S-level `k`.  The code's
inner matching loop admits the node on the first match: building A-level 0
from `S0` of `air_cargo_p1`'s initial state admits `Load(C2, P1, JFK)` even
though its precondition S-node `At(P1, JFK)` (positive) is absent from
`S0`. -/
theorem claim_C2_one_matching_precondition_admits :
    mkCache air_cargo_p1 = some p1cache ∧
    (add_action_level_full p1cache.actions_for_preconds s0p1).isSome = true ∧
    loadC2P1JFK ∈ (add_action_level_full p1cache.actions_for_preconds s0p1).getD [] ∧
    PgNode_s.mk (atL "P1" "JFK") true ∈ precond_s_nodes loadC2P1JFK ∧
    PgNode_s.mk (atL "P1" "JFK") true ∉ s0p1 := by
  refine ⟨by decide, by decide, by decide, by decide, by decide⟩

/-- C10: the first `PlanningGraph` construction for a problem attaches the
combined action list, the precondition index and the goal node set; any
later construction with the attributes already attached leaves them
unchanged and builds the graph from the cached values. -/
theorem claim_C10_problem_cache :
    (∀ (p : AirCargoProblem) (s : List Bool) (serial short : Bool) (fuel : Nat)
        (c : ProblemCache) (g : PlanningGraph),
      mkPlanningGraph p none s serial short fuel = some (c, g) →
      c.all_actions = p.actions_list ++ noop_actions p.state_map ∧
      some c.actions_for_preconds =
        precond_to_action p.state_map (p.actions_list ++ noop_actions p.state_map) ∧
      c.goal_nodes = (p.goal.map (fun gl => PgNode_s.mk gl true)).foldl linsert []) ∧
    (∀ (p : AirCargoProblem) (c : ProblemCache) (s : List Bool) (serial short : Bool)
        (fuel : Nat) (c' : ProblemCache) (g : PlanningGraph),
      mkPlanningGraph p (some c) s serial short fuel = some (c', g) →
      c' = c ∧
      create_graph serial short c.actions_for_preconds c.goal_nodes
        (decode_state s p.state_map) fuel = some g) := by
  constructor
  · intro p s serial short fuel c g h
    rcases hpre : precond_to_action p.state_map (p.actions_list ++ noop_actions p.state_map)
      with _ | m
    · simp [mkPlanningGraph, mkCache, hpre] at h
    · simp only [mkPlanningGraph, mkCache, hpre] at h
      rcases hg : create_graph serial short m
          ((p.goal.map (fun gl => PgNode_s.mk gl true)).foldl linsert [])
          (decode_state s p.state_map) fuel with _ | g'
      · rw [hg] at h; simp at h
      · rw [hg] at h
        simp only [Option.some.injEq, Prod.mk.injEq] at h
        obtain ⟨hc, hgg⟩ := h
        subst hc
        simp [hpre]
  · intro p c s serial short fuel c' g h
    simp only [mkPlanningGraph] at h
    rcases hg : create_graph serial short c.actions_for_preconds c.goal_nodes
        (decode_state s p.state_map) fuel with _ | g'
    · rw [hg] at h; simp at h
    · rw [hg] at h
      simp only [Option.some.injEq, Prod.mk.injEq] at h
      obtain ⟨hc, hgg⟩ := h
      subst hc
      subst hgg
      exact ⟨rfl, rfl⟩

/-- A one-fluent problem (no domain actions, goal `A`, `A` initially true);
the planning-graph builder levels off immediately on it. -/
def probTiny : AirCargoProblem :=
  { cargos := [], planes := [], airports := [], state_map := ["A"]
    initial_state_TF := [true], goal := ["A"], actions_list := [] }

/-- First `PlanningGraph` construction for `probTiny`. -/
def tinyBuild : ProblemCache × PlanningGraph :=
  (mkPlanningGraph probTiny none [true] true false 10).getD (⟨[], [], []⟩, ⟨[], [], [], []⟩)

/-- Second `PlanningGraph` construction for `probTiny`, reusing the cache
attached by the first. -/
def tinyBuild2 : ProblemCache × PlanningGraph :=
  (mkPlanningGraph probTiny (some tinyBuild.1) [true] true false 10).getD
    (⟨[], [], []⟩, ⟨[], [], [], []⟩)

/-- Witness for C10 at a concrete input: on `probTiny`, the first
construction attaches the combined action list and the second returns the
same cache object. -/
theorem claim_C10_problem_cache_witness :
    tinyBuild.1.all_actions = probTiny.actions_list ++ noop_actions probTiny.state_map ∧
    tinyBuild2.1 = tinyBuild.1 :=
  ⟨(claim_C10_problem_cache.1 probTiny [true] true false 10 tinyBuild.1 tinyBuild.2
      (by decide)).1,
   (claim_C10_problem_cache.2 probTiny tinyBuild.1 [true] true false 10 tinyBuild2.1
      tinyBuild2.2 (by decide)).1⟩

lemma mutexify_symm_mem {α : Type} [DecidableEq α] (m : List (α × α))
    (hm : ∀ x y, (x, y) ∈ m → (y, x) ∈ m) (n1 n2 : α) :
    ∀ x y, (x, y) ∈ mutexify m n1 n2 → (y, x) ∈ mutexify m n1 n2 := by
  intro x y hxy
  unfold mutexify at hxy ⊢
  rw [mem_linsert, mem_linsert] at hxy
  rw [mem_linsert, mem_linsert]
  rcases hxy with h | h | h
  · rw [Prod.ext_iff] at h
    exact Or.inr (Or.inl (by rw [Prod.ext_iff]; exact ⟨h.2, h.1⟩))
  · rw [Prod.ext_iff] at h
    exact Or.inl (by rw [Prod.ext_iff]; exact ⟨h.2, h.1⟩)
  · exact Or.inr (Or.inr (hm x y h))

lemma foldl_mutexify_symm {α : Type} [DecidableEq α] (cond : α → α → Bool) :
    ∀ (l : List (α × α)) (m : List (α × α)),
      (∀ x y, (x, y) ∈ m → (y, x) ∈ m) →
      ∀ x y,
        (x, y) ∈ l.foldl
          (fun m pr => if cond pr.1 pr.2 then mutexify m pr.1 pr.2 else m) m →
        (y, x) ∈ l.foldl
          (fun m pr => if cond pr.1 pr.2 then mutexify m pr.1 pr.2 else m) m := by
  intro l
  induction l with
  | nil => intro m hm x y h; exact hm x y h
  | cons pr l ih =>
      intro m hm x y h
      simp only [List.foldl_cons] at h ⊢
      by_cases hc : cond pr.1 pr.2 = true
      · rw [if_pos hc] at h ⊢
        exact ih _ (mutexify_symm_mem m hm pr.1 pr.2) x y h
      · rw [if_neg hc] at h ⊢
        exact ih _ hm x y h

lemma update_a_mutex_symm (serial : Bool) (sm : List (PgNode_s × PgNode_s))
    (sl : List PgNode_s) (ns : List PlanAction) :
    ∀ x y, (x, y) ∈ update_a_mutex serial sm sl ns →
      (y, x) ∈ update_a_mutex serial sm sl ns := by
  intro x y h
  unfold update_a_mutex at h ⊢
  exact foldl_mutexify_symm (fun n1 n2 => a_mutex_cond serial sm sl n1 n2) _ []
    (by intro a b hab; simp at hab) x y h

lemma update_s_mutex_symm (am : List (PlanAction × PlanAction))
    (al : List PlanAction) (ns : List PgNode_s) :
    ∀ x y, (x, y) ∈ update_s_mutex am al ns → (y, x) ∈ update_s_mutex am al ns := by
  intro x y h
  unfold update_s_mutex at h ⊢
  exact foldl_mutexify_symm
    (fun n1 n2 => negation_mutex n1 n2 || inconsistent_support_mutex am al n1 n2) _ []
    (by intro a b hab; simp at hab) x y h

lemma create_graph_loop_mutex_symm (serial short : Bool)
    (idx : List (PrecondKey × List PlanAction)) (goal_nodes : List PgNode_s) :
    ∀ (fuel : Nat) (prev : List PgNode_s) (psm : List (PgNode_s × PgNode_s))
      (g g' : PlanningGraph),
      (∀ m ∈ g.s_mutex, ∀ x y, (x, y) ∈ m → (y, x) ∈ m) →
      (∀ m ∈ g.a_mutex, ∀ x y, (x, y) ∈ m → (y, x) ∈ m) →
      create_graph_loop serial short idx goal_nodes fuel prev psm g = some g' →
      (∀ m ∈ g'.s_mutex, ∀ x y, (x, y) ∈ m → (y, x) ∈ m) ∧
      (∀ m ∈ g'.a_mutex, ∀ x y, (x, y) ∈ m → (y, x) ∈ m) := by
  intro fuel
  induction fuel with
  | zero =>
      intro prev psm g g' _ _ h
      simp [create_graph_loop] at h
  | succ fuel ih =>
      intro prev psm g g' hs ha h
      rw [create_graph_loop] at h
      rcases hak : (if short then add_action_level_shortcut idx prev
                    else add_action_level_full idx prev) with _ | ak
      · rw [hak] at h; simp at h
      · rw [hak] at h
        simp only at h
        have hs' : ∀ m ∈ g.s_mutex ++
            [if short then [] else update_s_mutex
              (if short then [] else update_a_mutex serial psm prev ak) ak
              (add_literal_level ak)],
            ∀ x y, (x, y) ∈ m → (y, x) ∈ m := by
          intro m hm
          rcases List.mem_append.1 hm with hm | hm
          · exact hs m hm
          · simp only [List.mem_singleton] at hm
            subst hm
            rcases hshort : short with _ | _
            · simp only [Bool.false_eq_true, if_false]
              exact update_s_mutex_symm _ _ _
            · simp only [if_true]
              intro x y hxy; simp at hxy
        have ha' : ∀ m ∈ g.a_mutex ++
            [if short then [] else update_a_mutex serial psm prev ak],
            ∀ x y, (x, y) ∈ m → (y, x) ∈ m := by
          intro m hm
          rcases List.mem_append.1 hm with hm | hm
          · exact ha m hm
          · simp only [List.mem_singleton] at hm
            subst hm
            rcases hshort : short with _ | _
            · simp only [Bool.false_eq_true, if_false]
              exact update_a_mutex_symm _ _ _ _
            · simp only [if_true]
              intro x y hxy; simp at hxy
        by_cases heq : lseteq (add_literal_level ak) prev = true
        · rw [if_pos heq] at h
          simp only [Option.some.injEq] at h
          subst h
          exact ⟨hs', ha'⟩
        · rw [if_neg heq] at h
          by_cases hgo : (short && lsubset goal_nodes (add_literal_level ak)) = true
          · rw [if_pos hgo] at h
            simp only [Option.some.injEq] at h
            subst h
            exact ⟨hs', ha'⟩
          · rw [if_neg hgo] at h
            exact ih _ _ _ _ hs' ha' h

/-- C8: after building any planning graph, the mutex relation is symmetric
at every level — in every stored S- or A-level mutex relation, if `(x, y)`
is recorded (`y ∈ x.mutex`) then so is `(y, x)` (`mutexify` always inserts
both directions). -/
theorem claim_C8_mutex_symmetric (serial short : Bool)
    (idx : List (PrecondKey × List PlanAction)) (goal_nodes : List PgNode_s)
    (fs : FluentState) (fuel : Nat) (g : PlanningGraph)
    (h : create_graph serial short idx goal_nodes fs fuel = some g) :
    (∀ m ∈ g.s_mutex, ∀ x y, (x, y) ∈ m → (y, x) ∈ m) ∧
    (∀ m ∈ g.a_mutex, ∀ x y, (x, y) ∈ m → (y, x) ∈ m) := by
  unfold create_graph at h
  refine create_graph_loop_mutex_symm serial short idx goal_nodes fuel _ _ _ g
    ?_ ?_ h
  · intro m hm
    simp only [List.mem_singleton] at hm
    subst hm
    intro x y hxy; simp at hxy
  · intro m hm
    simp at hm

/-- Domain action achieving `X` from `A` (used in a three-fluent problem). -/
def actA : PlanAction :=
  { name := "AchX", precond_pos := ["A"], precond_neg := []
    effect_add := ["X"], effect_rem := [] }

/-- Domain action achieving `Y` from `A`. -/
def actB : PlanAction :=
  { name := "AchY", precond_pos := ["A"], precond_neg := []
    effect_add := ["Y"], effect_rem := [] }

/-- Three-fluent problem: `A` initially true, `X` and `Y` initially false,
two non-persistent actions achieving `X` and `Y` from `A`. -/
def probXY : AirCargoProblem :=
  { cargos := [], planes := [], airports := [], state_map := ["A", "X", "Y"]
    initial_state_TF := [true, false, false], goal := [], actions_list := [actA, actB] }

/-- Attributes attached to `probXY` by the `PlanningGraph` constructor. -/
def xyCache : ProblemCache := (mkCache probXY).getD ⟨[], [], []⟩

/-- Decoded initial fluent state of `probXY`. -/
def fsXY : FluentState := decode_state [true, false, false] probXY.state_map

/-- The planning graph the (full, serial) builder produces for `probXY`. -/
def xyGraph : PlanningGraph :=
  (create_graph true false xyCache.actions_for_preconds xyCache.goal_nodes fsXY 10).getD
    ⟨[], [], [], []⟩

/-- Witness for C8 at a concrete input: in `probXY`'s graph, S-level 1
records the mutex `(X⁺, Y⁺)`, and symmetry gives `(Y⁺, X⁺)`. -/
theorem claim_C8_mutex_symmetric_witness :
    (PgNode_s.mk "X" true, PgNode_s.mk "Y" true) ∈ xyGraph.s_mutex.getD 1 [] ∧
    (PgNode_s.mk "Y" true, PgNode_s.mk "X" true) ∈ xyGraph.s_mutex.getD 1 [] := by
  refine ⟨by decide, ?_⟩
  have h := claim_C8_mutex_symmetric true false xyCache.actions_for_preconds
    xyCache.goal_nodes fsXY 10 xyGraph (by decide)
  exact h.1 (xyGraph.s_mutex.getD 1 []) (by decide) _ _ (by decide)

/-- C6 counterexample: the claim says the builder stops only when the newest
S-level equals the previous one AND the mutex sets agree.  On `probXY` the
(full, serial) builder stops after level 2 — `S2 = S1` as node sets — while
the S-mutex sets still differ: S1 carries the inconsistent-support mutex
`(X⁺, Y⁺)` (sole supports `AchX`, `AchY` are serial-mutex) which S2 no
longer has (at level 2 the no-op supports break the mutex). -/
theorem claim_C6_counterexample_mutex_ignored :
    create_graph true false xyCache.actions_for_preconds xyCache.goal_nodes fsXY 10 =
      some xyGraph ∧
    xyGraph.s_levels.length = 3 ∧
    lseteq (xyGraph.s_levels.getD 2 []) (xyGraph.s_levels.getD 1 []) = true ∧
    lseteq (xyGraph.s_mutex.getD 2 []) (xyGraph.s_mutex.getD 1 []) = false ∧
    (PgNode_s.mk "X" true, PgNode_s.mk "Y" true) ∈ xyGraph.s_mutex.getD 1 [] ∧
    (PgNode_s.mk "X" true, PgNode_s.mk "Y" true) ∉ xyGraph.s_mutex.getD 2 [] := by
  refine ⟨by decide, by decide, by decide, by decide, by decide, by decide⟩

lemma getD_append_lt {α : Type} (L M : List α) (d : α) (i : Nat) (h : i < L.length) :
    (L ++ M).getD i d = L.getD i d := by
  unfold List.getD
  rw [List.get?_append h]

lemma getD_append_self {α : Type} (L : List α) (x d : α) :
    (L ++ [x]).getD L.length d = x := by
  unfold List.getD
  rw [List.get?_append_right (le_refl _)]
  simp

lemma getD_last_of_getLast {α : Type} (L : List α) (x d : α)
    (h : L.getLast? = some x) : L.getD (L.length - 1) d = x := by
  rcases List.eq_nil_or_concat L with rfl | ⟨M, y, rfl⟩
  · simp at h
  · rw [List.concat_eq_append] at h ⊢
    rw [List.getLast?_append_cons] at h
    simp only [List.getLast?_singleton, Option.some.injEq] at h
    subst h
    simp only [List.length_append, List.length_singleton]
    have heq : M.length + 1 - 1 = M.length := rfl
    rw [heq, getD_append_self]

lemma create_graph_loop_full_stop (serial : Bool)
    (idx : List (PrecondKey × List PlanAction)) (goal_nodes : List PgNode_s) :
    ∀ (fuel : Nat) (prev : List PgNode_s) (psm : List (PgNode_s × PgNode_s))
      (g g' : PlanningGraph),
      g.s_levels.getLast? = some prev →
      (∀ i, i + 2 ≤ g.s_levels.length →
        lseteq (g.s_levels.getD (i + 1) []) (g.s_levels.getD i []) = false) →
      create_graph_loop serial false idx goal_nodes fuel prev psm g = some g' →
      2 ≤ g'.s_levels.length ∧
      lseteq (g'.s_levels.getD (g'.s_levels.length - 1) [])
        (g'.s_levels.getD (g'.s_levels.length - 2) []) = true ∧
      (∀ i, i + 2 < g'.s_levels.length →
        lseteq (g'.s_levels.getD (i + 1) []) (g'.s_levels.getD i []) = false) := by
  intro fuel
  induction fuel with
  | zero =>
      intro prev psm g g' _ _ h
      simp [create_graph_loop] at h
  | succ fuel ih =>
      intro prev psm g g' hlast hadj h
      have hlen1 : 1 ≤ g.s_levels.length := by
        rcases L : g.s_levels with _ | ⟨a, L'⟩
        · rw [L] at hlast; simp at hlast
        · simp
      rw [create_graph_loop] at h
      rcases hak : add_action_level_full idx prev with _ | ak
      · simp only [Bool.false_eq_true, if_false] at h
        rw [hak] at h; simp at h
      · simp only [Bool.false_eq_true, if_false] at h
        rw [hak] at h
        simp only [Bool.false_and, if_false] at h
        by_cases heq : lseteq (add_literal_level ak) prev = true
        · rw [if_pos heq] at h
          simp only [Option.some.injEq] at h
          subst h
          simp only [List.length_append, List.length_singleton]
          refine ⟨by omega, ?_, ?_⟩
          · have h1 : g.s_levels.length + 1 - 1 = g.s_levels.length := rfl
            have h2 : g.s_levels.length + 1 - 2 = g.s_levels.length - 1 := by omega
            rw [h1, h2, getD_append_self, getD_append_lt _ _ _ _ (by omega),
              getD_last_of_getLast _ _ _ hlast]
            exact heq
          · intro i hi
            have hi1 : i + 1 < g.s_levels.length := by omega
            rw [getD_append_lt _ _ _ _ hi1, getD_append_lt _ _ _ _ (by omega)]
            exact hadj i (by omega)
        · rw [if_neg heq] at h
          simp only [Bool.false_and, Bool.false_eq_true, if_false] at h
          refine ih _ _ _ _ ?_ ?_ h
          · simp
          · intro i hi
            simp only [List.length_append, List.length_singleton] at hi
            by_cases hilt : i + 2 ≤ g.s_levels.length
            · rw [getD_append_lt _ _ _ _ (by omega), getD_append_lt _ _ _ _ (by omega)]
              exact hadj i hilt
            · have hieq : i + 1 = g.s_levels.length := by omega
              rw [hieq, getD_append_self, getD_append_lt _ _ _ _ (by omega)]
              have hgi : g.s_levels.getD i [] = prev := by
                have hi2 : i = g.s_levels.length - 1 := by omega
                rw [hi2, getD_last_of_getLast _ _ _ hlast]
              rw [hgi]
              exact Bool.eq_false_iff.2 heq

/-- C6 (amended): the full builder stops exactly when the newest S-level
equals the previous S-level as a set of S-nodes; the mutex sets are not
compared, and may still differ at the stopping point.  Formally: in any
graph the full builder returns, the last two S-levels are set-equal and no
earlier adjacent pair is. -/
theorem claim_C6_leveled_is_node_set_equality (serial : Bool)
    (idx : List (PrecondKey × List PlanAction)) (goal_nodes : List PgNode_s)
    (fs : FluentState) (fuel : Nat) (g : PlanningGraph)
    (h : create_graph serial false idx goal_nodes fs fuel = some g) :
    2 ≤ g.s_levels.length ∧
    lseteq (g.s_levels.getD (g.s_levels.length - 1) [])
      (g.s_levels.getD (g.s_levels.length - 2) []) = true ∧
    (∀ i, i + 2 < g.s_levels.length →
      lseteq (g.s_levels.getD (i + 1) []) (g.s_levels.getD i []) = false) := by
  unfold create_graph at h
  exact create_graph_loop_full_stop serial idx goal_nodes fuel (s0_nodes fs) []
    { s_levels := [s0_nodes fs], a_levels := [], s_mutex := [[]], a_mutex := [] } g
    (by simp) (by intro i hi; simp at hi) h

/-- Witness for the amended C6 at a concrete input: on `probXY` the last two
S-levels are set-equal and the first two are not. -/
theorem claim_C6_leveled_witness :
    lseteq (xyGraph.s_levels.getD (xyGraph.s_levels.length - 1) [])
      (xyGraph.s_levels.getD (xyGraph.s_levels.length - 2) []) = true ∧
    lseteq (xyGraph.s_levels.getD 1 []) (xyGraph.s_levels.getD 0 []) = false := by
  have h := claim_C6_leveled_is_node_set_equality true xyCache.actions_for_preconds
    xyCache.goal_nodes fsXY 10 xyGraph (by decide)
  exact ⟨h.2.1, h.2.2 0 (by decide)⟩

/-- Specification-side reading of "the smallest level index at which the
node appears": `none` when the node appears in no level. -/
def firstLevel (levels : List (List PgNode_s)) (n : PgNode_s) : Option Nat :=
  match levels with
  | [] => none
  | lvl :: rest => if n ∈ lvl then some 0 else (firstLevel rest n).map (fun j => j + 1)

lemma firstLevel_isSome_of_mem (levels : List (List PgNode_s)) (n : PgNode_s)
    (h : ∃ lvl ∈ levels, n ∈ lvl) : (firstLevel levels n).isSome = true := by
  induction levels with
  | nil => obtain ⟨lvl, h1, _⟩ := h; simp at h1
  | cons lvl rest ih =>
      rw [firstLevel]
      by_cases hm : n ∈ lvl
      · rw [if_pos hm]; rfl
      · rw [if_neg hm]
        obtain ⟨l, hl, hnl⟩ := h
        rcases List.mem_cons.1 hl with rfl | hl
        · exact absurd hnl hm
        · have h2 := ih ⟨l, hl, hnl⟩
          rcases hfl : firstLevel rest n with _ | k
          · rw [hfl] at h2; simp at h2
          · rfl

lemma sum_map_const {α : Type} (l : List α) (c : Nat) :
    (l.map (fun _ => c)).sum = l.length * c := by
  induction l with
  | nil => simp
  | cons x xs ih => simp [ih, Nat.succ_mul, Nat.add_comm]

lemma length_filter_split {α : Type} (p : α → Bool) (l : List α) :
    (l.filter p).length + (l.filter (fun x => !p x)).length = l.length := by
  have h := (List.filter_append_perm p l).length_eq
  simpa using h

lemma h_levelsum_loop_all_found :
    ∀ (levels : List (List PgNode_s)) (gs : List PgNode_s)
      (i total level_sum goal_count : Nat),
      gs.Nodup → (∀ lvl ∈ levels, lvl.Nodup) →
      goal_count + gs.length = total →
      (∀ n ∈ gs, ∃ lvl ∈ levels, n ∈ lvl) →
      h_levelsum_loop levels i gs total level_sum goal_count =
        (level_sum + (gs.map (fun n => (firstLevel levels n).getD 0 + i)).sum, total) := by
  intro levels
  induction levels with
  | nil =>
      intro gs i total level_sum goal_count hnd _ hinv hex
      have hgs : gs = [] := by
        cases gs with
        | nil => rfl
        | cons n ns =>
            obtain ⟨lvl, h1, _⟩ := hex n (by simp)
            simp at h1
      subst hgs
      simp only [List.length_nil, Nat.add_zero] at hinv
      simp [h_levelsum_loop, hinv]
  | cons lvl rest ih =>
      intro gs i total level_sum goal_count hnd hlv hinv hex
      have hlvnd : lvl.Nodup := hlv lvl (by simp)
      have hrestnd : ∀ l ∈ rest, l.Nodup := fun l hl => hlv l (by simp [hl])
      have hperm : List.Perm (lvl.filter (fun x => decide (x ∈ gs)))
          (gs.filter (fun x => decide (x ∈ lvl))) := by
        refine List.perm_of_nodup_nodup_toFinset_eq (hlvnd.filter _) (hnd.filter _) ?_
        ext x
        simp only [List.mem_toFinset, List.mem_filter, decide_eq_true_eq]
        exact and_comm
      have hlenf : (lvl.filter (fun x => decide (x ∈ gs))).length =
          (gs.filter (fun x => decide (x ∈ lvl))).length := hperm.length_eq
      have hsplit : (gs.filter (fun x => decide (x ∈ lvl))).length +
          (gs.filter (fun x => !decide (x ∈ lvl))).length = gs.length :=
        length_filter_split _ gs
      have hgs' : gs.filter
            (fun x => decide (x ∉ lvl.filter (fun y => decide (y ∈ gs)))) =
          gs.filter (fun x => !decide (x ∈ lvl)) := by
        apply List.filter_congr
        intro x hx
        simp [List.mem_filter, hx]
      have hfIn : ∀ x ∈ gs.filter (fun x => decide (x ∈ lvl)),
          (firstLevel (lvl :: rest) x).getD 0 + i = i := by
        intro x hx
        rw [List.mem_filter] at hx
        rw [firstLevel, if_pos (by simpa using hx.2)]
        simp
      have hfOut : ∀ x ∈ gs.filter (fun x => !decide (x ∈ lvl)),
          (firstLevel (lvl :: rest) x).getD 0 + i =
            (firstLevel rest x).getD 0 + (i + 1) := by
        intro x hx
        rw [List.mem_filter] at hx
        have hxl : x ∉ lvl := by simpa using hx.2
        have hex2 : ∃ l ∈ rest, x ∈ l := by
          obtain ⟨l, hl, hxi⟩ := hex x hx.1
          rcases List.mem_cons.1 hl with rfl | hl
          · exact absurd hxi hxl
          · exact ⟨l, hl, hxi⟩
        have hsome := firstLevel_isSome_of_mem rest x hex2
        rw [firstLevel, if_neg hxl]
        rcases hfl : firstLevel rest x with _ | k
        · rw [hfl] at hsome; simp at hsome
        · simp [Nat.add_assoc, Nat.add_comm 1 i]
      have hsum : (gs.map (fun n => (firstLevel (lvl :: rest) n).getD 0 + i)).sum =
          (gs.filter (fun x => decide (x ∈ lvl))).length * i +
          ((gs.filter (fun x => !decide (x ∈ lvl))).map
            (fun n => (firstLevel rest n).getD 0 + (i + 1))).sum := by
        have hp := (List.filter_append_perm (fun x => decide (x ∈ lvl)) gs).symm
        have hps := (hp.map (fun n => (firstLevel (lvl :: rest) n).getD 0 + i)).sum_eq
        rw [hps, List.map_append, List.sum_append]
        congr 1
        · rw [List.map_congr_left hfIn, sum_map_const]
        · rw [List.map_congr_left hfOut]
      simp only [h_levelsum_loop]
      by_cases hcnt : goal_count + (lvl.filter (fun x => decide (x ∈ gs))).length = total
      · rw [if_pos hcnt]
        have hout0 : (gs.filter (fun x => !decide (x ∈ lvl))).length = 0 := by omega
        have hout : gs.filter (fun x => !decide (x ∈ lvl)) = [] :=
          List.length_eq_zero.1 hout0
        rw [Prod.mk.injEq]
        constructor
        · rw [hsum, hout]
          simp only [List.map_nil, List.sum_nil, Nat.add_zero]
          rw [hlenf]
        · exact hcnt
      · rw [if_neg hcnt]
        rw [hgs']
        rw [ih (gs.filter (fun x => !decide (x ∈ lvl))) (i + 1) total
          (level_sum + (lvl.filter (fun x => decide (x ∈ gs))).length * i)
          (goal_count + (lvl.filter (fun x => decide (x ∈ gs))).length)
          (hnd.filter _) hrestnd (by omega)
          (by
            intro n hn
            rw [List.mem_filter] at hn
            have hxl : n ∉ lvl := by simpa using hn.2
            obtain ⟨l, hl, hxi⟩ := hex n hn.1
            rcases List.mem_cons.1 hl with rfl | hl
            · exact absurd hxi hxl
            · exact ⟨l, hl, hxi⟩)]
        rw [Prod.mk.injEq]
        constructor
        · rw [hsum, hlenf]
          omega
        · rfl

lemma h_levelsum_loop_missing :
    ∀ (levels : List (List PgNode_s)) (gs : List PgNode_s)
      (i total level_sum goal_count : Nat),
      gs.Nodup → (∀ lvl ∈ levels, lvl.Nodup) →
      goal_count + gs.length = total →
      (∃ n ∈ gs, firstLevel levels n = none) →
      (h_levelsum_loop levels i gs total level_sum goal_count).2 ≠ total := by
  intro levels
  induction levels with
  | nil =>
      intro gs i total level_sum goal_count _ _ hinv hex
      obtain ⟨n, hn, _⟩ := hex
      have : 1 ≤ gs.length := List.length_pos.2 (by rintro rfl; simp at hn)
      simp only [h_levelsum_loop]
      omega
  | cons lvl rest ih =>
      intro gs i total level_sum goal_count hnd hlv hinv hex
      obtain ⟨n0, hn0, hfl0⟩ := hex
      have hlvnd : lvl.Nodup := hlv lvl (by simp)
      have hrestnd : ∀ l ∈ rest, l.Nodup := fun l hl => hlv l (by simp [hl])
      have hn0l : n0 ∉ lvl := by
        intro hmem
        rw [firstLevel, if_pos hmem] at hfl0
        simp at hfl0
      have hfl0r : firstLevel rest n0 = none := by
        rw [firstLevel, if_neg hn0l] at hfl0
        rcases hfl : firstLevel rest n0 with _ | k
        · rfl
        · rw [hfl] at hfl0; simp at hfl0
      have hperm : List.Perm (lvl.filter (fun x => decide (x ∈ gs)))
          (gs.filter (fun x => decide (x ∈ lvl))) := by
        refine List.perm_of_nodup_nodup_toFinset_eq (hlvnd.filter _) (hnd.filter _) ?_
        ext x
        simp only [List.mem_toFinset, List.mem_filter, decide_eq_true_eq]
        exact and_comm
      have hlenf : (lvl.filter (fun x => decide (x ∈ gs))).length =
          (gs.filter (fun x => decide (x ∈ lvl))).length := hperm.length_eq
      have hsplit : (gs.filter (fun x => decide (x ∈ lvl))).length +
          (gs.filter (fun x => !decide (x ∈ lvl))).length = gs.length :=
        length_filter_split _ gs
      have hgs' : gs.filter
            (fun x => decide (x ∉ lvl.filter (fun y => decide (y ∈ gs)))) =
          gs.filter (fun x => !decide (x ∈ lvl)) := by
        apply List.filter_congr
        intro x hx
        simp [List.mem_filter, hx]
      have hn0' : n0 ∈ gs.filter (fun x => !decide (x ∈ lvl)) := by
        rw [List.mem_filter]
        exact ⟨hn0, by simpa using hn0l⟩
      have hlen1 : 1 ≤ (gs.filter (fun x => !decide (x ∈ lvl))).length :=
        List.length_pos.2 (by rintro h; rw [h] at hn0'; simp at hn0')
      simp only [h_levelsum_loop]
      have hcnt : ¬ (goal_count + (lvl.filter (fun x => decide (x ∈ gs))).length = total) := by
        omega
      rw [if_neg hcnt]
      rw [hgs']
      exact ih (gs.filter (fun x => !decide (x ∈ lvl))) (i + 1) total _ _
        (hnd.filter _) hrestnd (by omega) ⟨n0, hn0', hfl0r⟩

/-- A state id of `air_cargo_p1` satisfying both goals: `At(C1,JFK)`,
`At(C2,SFO)` hold, the planes sit at `SFO`/`JFK`, everything else is
false. -/
def p1goalState : List Bool :=
  [false, false, true, true, true, false, false, true, false, false, false, false]

/-- `S0` of the planning graph for `p1goalState`. -/
def p1gs0 : List PgNode_s := s0_nodes (decode_state p1goalState air_cargo_p1.state_map)

/-- A-level 0 of that graph. -/
def p1gA0 : List PlanAction :=
  (add_action_level_full p1cache.actions_for_preconds p1gs0).getD []

/-- S-level 1 of that graph. -/
def p1gS1 : List PgNode_s := add_literal_level p1gA0

set_option maxRecDepth 40000 in
lemma p1_goal_step1 :
    add_action_level_full p1cache.actions_for_preconds p1gs0 = some p1gA0 := by decide

set_option maxRecDepth 40000 in
lemma p1_goal_ne : lseteq p1gS1 p1gs0 = false := by decide

set_option maxRecDepth 40000 in
lemma p1_goal_crash :
    candidate_actions p1cache.actions_for_preconds p1gS1 = none := by decide

lemma create_graph_loop_none_of_candidate_none (serial short : Bool)
    (idx : List (PrecondKey × List PlanAction)) (goal_nodes : List PgNode_s)
    (fuel : Nat) (prev : List PgNode_s) (psm : List (PgNode_s × PgNode_s))
    (g : PlanningGraph) (h : candidate_actions idx prev = none) :
    create_graph_loop serial short idx goal_nodes fuel prev psm g = none := by
  cases fuel with
  | zero => rw [create_graph_loop]
  | succ n =>
      rw [create_graph_loop]
      have h2 : (if short then add_action_level_shortcut idx prev
                 else add_action_level_full idx prev) = none := by
        cases short
        · simp only [Bool.false_eq_true, if_false, add_action_level_full, h]
        · simp only [if_true, add_action_level_shortcut, h]
      rw [h2]

lemma create_graph_loop_succ_full (serial : Bool)
    (idx : List (PrecondKey × List PlanAction)) (goal_nodes : List PgNode_s)
    (fuel : Nat) (prev : List PgNode_s) (psm : List (PgNode_s × PgNode_s))
    (g : PlanningGraph) (ak : List PlanAction)
    (hak : add_action_level_full idx prev = some ak)
    (hne : lseteq (add_literal_level ak) prev = false) :
    create_graph_loop serial false idx goal_nodes (fuel + 1) prev psm g =
      create_graph_loop serial false idx goal_nodes fuel (add_literal_level ak)
        (update_s_mutex (update_a_mutex serial psm prev ak) ak (add_literal_level ak))
        { s_levels := g.s_levels ++ [add_literal_level ak]
          a_levels := g.a_levels ++ [ak]
          s_mutex := g.s_mutex ++
            [update_s_mutex (update_a_mutex serial psm prev ak) ak (add_literal_level ak)]
          a_mutex := g.a_mutex ++ [update_a_mutex serial psm prev ak] } := by
  rw [create_graph_loop]
  simp only [Bool.false_eq_true, if_false]
  rw [hak]
  simp only [hne, Bool.false_eq_true, if_false, Bool.false_and]

/-- Building the planning graph for `air_cargo_p1` from the goal-satisfying
state raises `KeyError` at level 1 (S1 contains `¬At(C1, P1)`, a Load
remove-effect literal outside the state map), whatever the fuel. -/
lemma p1_goal_build_none :
    ∀ fuel, mkPlanningGraph air_cargo_p1 none p1goalState true false fuel = none := by
  intro fuel
  have hc : mkCache air_cargo_p1 = some p1cache := by decide
  simp only [mkPlanningGraph, hc]
  have hg : create_graph true false p1cache.actions_for_preconds p1cache.goal_nodes
      (decode_state p1goalState air_cargo_p1.state_map) fuel = none := by
    unfold create_graph
    have hs0 : s0_nodes (decode_state p1goalState air_cargo_p1.state_map) = p1gs0 := rfl
    rw [hs0]
    cases fuel with
    | zero => rw [create_graph_loop]
    | succ n =>
        rw [create_graph_loop_succ_full true p1cache.actions_for_preconds
          p1cache.goal_nodes n p1gs0 [] _ p1gA0 p1_goal_step1 p1_goal_ne]
        exact create_graph_loop_none_of_candidate_none true false _ _ n p1gS1 _ _
          p1_goal_crash
  rw [hg]

lemma foldl_linsert_of_nodup {α : Type} [DecidableEq α] :
    ∀ (l acc : List α), (acc ++ l).Nodup → l.foldl linsert acc = acc ++ l := by
  intro l
  induction l with
  | nil => intro acc _; simp
  | cons x xs ih =>
      intro acc hnd
      have hx : x ∉ acc := by
        intro hmem
        rw [List.nodup_append] at hnd
        exact hnd.2.2 hmem (by simp)
      have h1 : linsert acc x = acc ++ [x] := by rw [linsert, if_neg hx]
      rw [List.foldl_cons, h1, ih (acc ++ [x]) (by simpa using hnd)]
      simp

lemma h_levelsum_spec :
    ∀ (levels : List (List PgNode_s)) (goal : List Lit),
      goal.Nodup → (∀ lvl ∈ levels, lvl.Nodup) →
      ((∀ g ∈ goal, ∃ lvl ∈ levels, PgNode_s.mk g true ∈ lvl) →
        h_levelsum levels goal =
          (goal.map (fun g => (firstLevel levels (PgNode_s.mk g true)).getD 0)).sum) ∧
      ((∃ g ∈ goal, firstLevel levels (PgNode_s.mk g true) = none) →
        h_levelsum levels goal = maxsize) := by
    intro levels goal hnd hlv
    have hmapnd : (goal.map (fun g => PgNode_s.mk g true)).Nodup :=
      hnd.map (fun a b hab => by simpa using hab)
    have hgs : (goal.map (fun g => PgNode_s.mk g true)).foldl linsert [] =
        goal.map (fun g => PgNode_s.mk g true) :=
      foldl_linsert_of_nodup _ [] (by simpa using hmapnd)
    have hlen : (goal.map (fun g => PgNode_s.mk g true)).length = goal.length :=
      List.length_map _ _
    constructor
    · intro hex
      simp only [h_levelsum]
      rw [hgs]
      rw [h_levelsum_loop_all_found levels (goal.map (fun g => PgNode_s.mk g true))
        0 goal.length 0 0 hmapnd hlv (by simp [hlen]) (by
          intro n hn
          rw [List.mem_map] at hn
          obtain ⟨g, hg, rfl⟩ := hn
          exact hex g hg)]
      simp only [if_pos, Nat.zero_add]
      rw [List.map_map]
      rfl
    · intro hex
      simp only [h_levelsum]
      rw [hgs]
      have hne := h_levelsum_loop_missing levels (goal.map (fun g => PgNode_s.mk g true))
        0 goal.length 0 0 hmapnd hlv (by simp [hlen]) (by
          obtain ⟨g, hg, hfl⟩ := hex
          exact ⟨PgNode_s.mk g true, List.mem_map_of_mem _ hg, hfl⟩)
      rw [if_neg hne]
/-- C5: the claim describes `h_levelsum` on a built graph: sum over goal
literals of the smallest level index at which the positive S-node appears
(proved, with the sentinel returned — without throwing — when a goal never
appears, and 0 when every goal node already sits in `S0`); but its "result
is 0 on a goal-satisfying source state" fails on the repository's own
problem: on `air_cargo_p1` the graph construction that `h_pg_levelsum`
performs raises `KeyError` (whatever the fuel), because level-1 S-nodes
carry effect literals such as `At(C1, P1)` that are outside the state map,
so no value is ever returned. -/
theorem claim_C5_levelsum :
    (∀ (levels : List (List PgNode_s)) (goal : List Lit),
      goal.Nodup → (∀ lvl ∈ levels, lvl.Nodup) →
      ((∀ g ∈ goal, ∃ lvl ∈ levels, PgNode_s.mk g true ∈ lvl) →
        h_levelsum levels goal =
          (goal.map (fun g => (firstLevel levels (PgNode_s.mk g true)).getD 0)).sum) ∧
      ((∃ g ∈ goal, firstLevel levels (PgNode_s.mk g true) = none) →
        h_levelsum levels goal = maxsize)) ∧
    (∀ (levels : List (List PgNode_s)) (goal : List Lit),
      goal.Nodup → (∀ lvl ∈ levels, lvl.Nodup) → levels ≠ [] →
      (∀ g ∈ goal, PgNode_s.mk g true ∈ levels.getD 0 []) →
      h_levelsum levels goal = 0) ∧
    (∀ g ∈ air_cargo_p1.goal,
      (decode_state p1goalState air_cargo_p1.state_map).pos.contains g = true) ∧
    (∀ fuel, mkPlanningGraph air_cargo_p1 none p1goalState true false fuel = none) := by
  refine ⟨h_levelsum_spec, ?_, by decide, p1_goal_build_none⟩
  intro levels goal hnd hlv hne hmem
  rcases levels with _ | ⟨lvl0, rest⟩
  · exact absurd rfl hne
  · have h := (h_levelsum_spec (lvl0 :: rest) goal hnd hlv).1 (by
      intro g hg
      exact ⟨lvl0, by simp, by simpa using hmem g hg⟩)
    rw [h]
    have hz : ∀ g ∈ goal,
        (firstLevel (lvl0 :: rest) (PgNode_s.mk g true)).getD 0 = 0 := by
      intro g hg
      rw [firstLevel, if_pos (by simpa using hmem g hg)]
      rfl
    rw [List.map_congr_left hz]
    rw [sum_map_const]
    simp

/-- Witness for C5 at concrete inputs: on `probTiny`'s built graph the
level-sum of the (satisfied) goal is 0, and adding an unreachable goal
literal `B` makes it return the `sys.maxsize` sentinel. -/
theorem claim_C5_levelsum_witness :
    h_levelsum tinyBuild.2.s_levels probTiny.goal = 0 ∧
    h_levelsum tinyBuild.2.s_levels ["A", "B"] = maxsize :=
  ⟨claim_C5_levelsum.2.1 tinyBuild.2.s_levels probTiny.goal (by decide) (by decide)
    (by decide) (by decide),
   (claim_C5_levelsum.1 tinyBuild.2.s_levels ["A", "B"] (by decide) (by decide)).2
    (by decide)⟩

lemma mem_foldl_lunion {α β : Type} [DecidableEq α] (f : β → List α) :
    ∀ (l : List β) (acc : List α) (x : α),
      x ∈ l.foldl (fun acc s => lunion acc (f s)) acc ↔ x ∈ acc ∨ ∃ s ∈ l, x ∈ f s := by
  intro l
  induction l with
  | nil => simp
  | cons y ys ih =>
      intro acc x
      simp only [List.foldl_cons, ih (lunion acc (f y)) x, mem_lunion, List.mem_cons]
      constructor
      · rintro ((h | h) | ⟨s, hs, hx⟩)
        · exact Or.inl h
        · exact Or.inr ⟨y, Or.inl rfl, h⟩
        · exact Or.inr ⟨s, Or.inr hs, hx⟩
      · rintro (h | ⟨s, (rfl | hs), hx⟩)
        · exact Or.inl (Or.inl h)
        · exact Or.inl (Or.inr hx)
        · exact Or.inr ⟨s, hs, hx⟩

lemma mem_candidate_actions (idx : List (PrecondKey × List PlanAction))
    (s_level : List PgNode_s) (cands : List PlanAction)
    (h : candidate_actions idx s_level = some cands) (a : PlanAction) :
    a ∈ cands ↔ ∃ s ∈ s_level, ∃ v, lookupPre idx (s.symbol, s.is_pos) = some v ∧ a ∈ v := by
  unfold candidate_actions at h
  by_cases hall : s_level.all (fun s => (lookupPre idx (s.symbol, s.is_pos)).isSome) = true
  · rw [if_pos hall] at h
    simp only [Option.some.injEq] at h
    subst h
    rw [mem_foldl_lunion]
    simp only [List.not_mem_nil, false_or]
    constructor
    · rintro ⟨s, hs, hx⟩
      have hsome : (lookupPre idx (s.symbol, s.is_pos)).isSome = true := by
        rw [List.all_eq_true] at hall
        exact hall s hs
      rcases hl : lookupPre idx (s.symbol, s.is_pos) with _ | v
      · rw [hl] at hsome; simp at hsome
      · rw [hl] at hx
        exact ⟨s, hs, v, hl, hx⟩
    · rintro ⟨s, hs, v, hv, hx⟩
      exact ⟨s, hs, by rw [hv]; exact hx⟩
  · rw [if_neg hall] at h
    exact Option.noConfusion h

lemma lookupPre_precond (state_map : List Lit) (actions : List PlanAction)
    (m : List (PrecondKey × List PlanAction))
    (hm : precond_to_action state_map actions = some m)
    (k : PrecondKey) (v : List PlanAction) (hk : lookupPre m k = some v)
    (a : PlanAction) (ha : a ∈ v) : hasPrecond a k = true := by
  unfold precond_to_action at hm
  by_cases hall : actions.all
      (fun a => a.precond_pos.all (fun l => state_map.contains l) &&
                a.precond_neg.all (fun l => state_map.contains l)) = true
  · rw [if_pos hall] at hm
    simp only [Option.some.injEq] at hm
    subst hm
    unfold lookupPre at hk
    rcases hf : List.find? (fun e => e.1 == k)
        ((precond_keys state_map).map
          (fun k => (k, (actions.filter (fun a => hasPrecond a k)).foldl linsert [])))
      with _ | e
    · rw [hf] at hk; simp at hk
    · rw [hf] at hk
      simp only [Option.map_some', Option.some.injEq] at hk
      have hpe := List.find?_some hf
      have hme := List.mem_of_find?_eq_some hf
      rw [List.mem_map] at hme
      obtain ⟨k', _, hke⟩ := hme
      have hek : e.1 = k := by simpa using hpe
      have h2 : e.2 = (actions.filter (fun a => hasPrecond a k')).foldl linsert [] := by
        rw [← hke]
      have h1 : k' = k := by rw [← hek, ← hke]
      subst h1
      rw [← hk, h2, mem_foldl_linsert] at ha
      rcases ha with ha | ha
      · simp at ha
      · exact (List.mem_filter.1 ha).2
  · rw [if_neg hall] at hm
    exact Option.noConfusion hm

lemma add_action_level_full_eq_shortcut (state_map : List Lit)
    (actions : List PlanAction) (m : List (PrecondKey × List PlanAction))
    (hm : precond_to_action state_map actions = some m) (s_level : List PgNode_s) :
    add_action_level_full m s_level = add_action_level_shortcut m s_level := by
  unfold add_action_level_full add_action_level_shortcut
  rcases hc : candidate_actions m s_level with _ | cands
  · rfl
  · simp only [Option.some.injEq]
    apply List.filter_eq_self.2
    intro a ha
    obtain ⟨s, hs, v, hv, hx⟩ := (mem_candidate_actions m s_level cands hc a).1 ha
    have hp := lookupPre_precond state_map actions m hm (s.symbol, s.is_pos) v hv a hx
    obtain ⟨sym, pol⟩ := s
    have hmem : PgNode_s.mk sym pol ∈ precond_s_nodes a := by
      rw [mem_precond_s_nodes]
      cases pol with
      | false =>
          simp only [hasPrecond] at hp
          exact Or.inr ⟨rfl, by simpa using hp⟩
      | true =>
          simp only [hasPrecond] at hp
          exact Or.inl ⟨rfl, by simpa using hp⟩
    rw [List.any_eq_true]
    exact ⟨PgNode_s.mk sym pol, hs, by simpa using hmem⟩

/-- The sequence of S-levels the builder generates past `S0`, up to the
first repetition (shared by both builder modes, since on a well-formed
precondition index the one-match filter keeps every candidate). -/
def sTrace (idx : List (PrecondKey × List PlanAction)) :
    Nat → List PgNode_s → Option (List (List PgNode_s))
  | 0, _ => none
  | fuel + 1, prev =>
      match add_action_level_shortcut idx prev with
      | none => none
      | some ak =>
          if lseteq (add_literal_level ak) prev then some [add_literal_level ak]
          else
            match sTrace idx fuel (add_literal_level ak) with
            | none => none
            | some t => some (add_literal_level ak :: t)

lemma create_graph_loop_full_trace (serial : Bool) (state_map : List Lit)
    (actions : List PlanAction) (idx : List (PrecondKey × List PlanAction))
    (goal_nodes : List PgNode_s)
    (hm : precond_to_action state_map actions = some idx) :
    ∀ (fuel : Nat) (prev : List PgNode_s) (psm : List (PgNode_s × PgNode_s))
      (g g' : PlanningGraph),
      create_graph_loop serial false idx goal_nodes fuel prev psm g = some g' →
      ∃ t, sTrace idx fuel prev = some t ∧ g'.s_levels = g.s_levels ++ t := by
  intro fuel
  induction fuel with
  | zero =>
      intro prev psm g g' h
      simp [create_graph_loop] at h
  | succ fuel ih =>
      intro prev psm g g' h
      rw [create_graph_loop] at h
      simp only [Bool.false_eq_true, if_false] at h
      rcases hak : add_action_level_full idx prev with _ | ak
      · rw [hak] at h; exact Option.noConfusion h
      · rw [hak] at h
        have hak2 : add_action_level_shortcut idx prev = some ak := by
          rw [← add_action_level_full_eq_shortcut state_map actions idx hm]
          exact hak
        simp only at h
        rw [sTrace]
        simp only [hak2]
        by_cases heq : lseteq (add_literal_level ak) prev = true
        · rw [if_pos heq] at h
          rw [if_pos heq]
          simp only [Option.some.injEq] at h
          subst h
          exact ⟨[add_literal_level ak], rfl, rfl⟩
        · rw [if_neg heq] at h
          rw [if_neg heq]
          simp only [Bool.false_and, Bool.false_eq_true, if_false] at h
          obtain ⟨t, ht, hlv⟩ := ih _ _ _ _ h
          rw [ht]
          refine ⟨add_literal_level ak :: t, rfl, ?_⟩
          rw [hlv]
          simp

lemma getLast?_cons_of_getLast? {α : Type} (x : α) (xs : List α) (l : α)
    (h : xs.getLast? = some l) : (x :: xs).getLast? = some l := by
  cases xs with
  | nil => simp at h
  | cons y ys => rw [List.getLast?_cons_cons]; exact h

lemma create_graph_loop_short_of_trace (serial : Bool)
    (idx : List (PrecondKey × List PlanAction)) (goal_nodes : List PgNode_s) :
    ∀ (fuel : Nat) (prev : List PgNode_s) (psm : List (PgNode_s × PgNode_s))
      (g : PlanningGraph) (t : List (List PgNode_s)),
      sTrace idx fuel prev = some t →
      ∃ g', create_graph_loop serial true idx goal_nodes fuel prev psm g = some g' ∧
        ∃ t' r, g'.s_levels = g.s_levels ++ t' ∧ t = t' ++ r ∧
          (r = [] ∨ ∃ l, t'.getLast? = some l ∧ lsubset goal_nodes l = true) := by
  intro fuel
  induction fuel with
  | zero =>
      intro prev psm g t h
      simp [sTrace] at h
  | succ fuel ih =>
      intro prev psm g t h
      rw [sTrace] at h
      rcases hak : add_action_level_shortcut idx prev with _ | ak
      · rw [hak] at h; exact Option.noConfusion h
      · simp only [hak] at h
        rw [create_graph_loop]
        simp only [if_true, hak]
        by_cases heq : lseteq (add_literal_level ak) prev = true
        · rw [if_pos heq] at h
          rw [if_pos heq]
          simp only [Option.some.injEq] at h
          subst h
          exact ⟨_, rfl, [add_literal_level ak], [], rfl, by simp, Or.inl rfl⟩
        · rw [if_neg heq] at h
          rw [if_neg heq]
          rcases ht : sTrace idx fuel (add_literal_level ak) with _ | t''
          · rw [ht] at h; exact Option.noConfusion h
          · rw [ht] at h
            simp only [Option.some.injEq] at h
            subst h
            by_cases hgo : lsubset goal_nodes (add_literal_level ak) = true
            · rw [if_pos (by simpa using hgo)]
              refine ⟨_, rfl, [add_literal_level ak], t'', rfl, by simp, ?_⟩
              exact Or.inr ⟨add_literal_level ak, rfl, hgo⟩
            · rw [if_neg (by simpa using hgo)]
              obtain ⟨g', hg', t', r, hlv, htr, hdis⟩ := ih _ _ _ _ ht
              refine ⟨g', hg', add_literal_level ak :: t', r, ?_, ?_, ?_⟩
              · rw [hlv]; simp
              · rw [htr]; rfl
              · rcases hdis with rfl | ⟨l, hl, hsub⟩
                · exact Or.inl rfl
                · exact Or.inr ⟨l, getLast?_cons_of_getLast? _ _ _ hl, hsub⟩

lemma nodup_foldl_linsert {α : Type} [DecidableEq α] :
    ∀ (l acc : List α), acc.Nodup → (l.foldl linsert acc).Nodup := by
  intro l
  induction l with
  | nil => intro acc h; exact h
  | cons x xs ih =>
      intro acc h
      rw [List.foldl_cons]
      refine ih _ ?_
      unfold linsert
      by_cases hx : x ∈ acc
      · rw [if_pos hx]; exact h
      · rw [if_neg hx]
        rw [List.nodup_append]
        exact ⟨h, List.nodup_singleton x, by
          intro a ha
          simp only [List.mem_singleton]
          intro hax
          subst hax
          exact hx ha⟩

lemma nodup_foldl_lunion {α β : Type} [DecidableEq α] (f : β → List α) :
    ∀ (l : List β) (acc : List α), acc.Nodup →
      (l.foldl (fun acc s => lunion acc (f s)) acc).Nodup := by
  intro l
  induction l with
  | nil => intro acc h; exact h
  | cons x xs ih =>
      intro acc h
      rw [List.foldl_cons]
      exact ih _ (nodup_foldl_linsert _ _ h)

lemma add_literal_level_nodup (ak : List PlanAction) : (add_literal_level ak).Nodup :=
  nodup_foldl_lunion _ ak [] List.nodup_nil

lemma s0_nodes_nodup (fs : FluentState) : (s0_nodes fs).Nodup :=
  nodup_foldl_linsert _ [] List.nodup_nil

lemma sTrace_levels_nodup (idx : List (PrecondKey × List PlanAction)) :
    ∀ (fuel : Nat) (prev : List PgNode_s) (t : List (List PgNode_s)),
      sTrace idx fuel prev = some t → ∀ lvl ∈ t, lvl.Nodup := by
  intro fuel
  induction fuel with
  | zero => intro prev t h; simp [sTrace] at h
  | succ fuel ih =>
      intro prev t h
      rw [sTrace] at h
      rcases hak : add_action_level_shortcut idx prev with _ | ak
      · rw [hak] at h; exact Option.noConfusion h
      · simp only [hak] at h
        by_cases heq : lseteq (add_literal_level ak) prev = true
        · rw [if_pos heq] at h
          simp only [Option.some.injEq] at h
          subst h
          intro lvl hlvl
          simp only [List.mem_singleton] at hlvl
          subst hlvl
          exact add_literal_level_nodup ak
        · rw [if_neg heq] at h
          rcases ht : sTrace idx fuel (add_literal_level ak) with _ | t''
          · rw [ht] at h; exact Option.noConfusion h
          · rw [ht] at h
            simp only [Option.some.injEq] at h
            subst h
            intro lvl hlvl
            rcases List.mem_cons.1 hlvl with rfl | hlvl
            · exact add_literal_level_nodup ak
            · exact ih _ _ ht lvl hlvl

lemma firstLevel_append_left :
    ∀ (L M : List (List PgNode_s)) (n : PgNode_s),
      (firstLevel L n).isSome = true → firstLevel (L ++ M) n = firstLevel L n := by
  intro L
  induction L with
  | nil => intro M n h; simp [firstLevel] at h
  | cons lvl rest ih =>
      intro M n h
      rw [List.cons_append, firstLevel, firstLevel]
      by_cases hm : n ∈ lvl
      · rw [if_pos hm, if_pos hm]
      · rw [if_neg hm, if_neg hm]
        rw [firstLevel, if_neg hm] at h
        rcases hfl : firstLevel rest n with _ | k
        · rw [hfl] at h; simp at h
        · rw [ih M n (by rw [hfl]; rfl), hfl]

/-- C7 (amended): whenever the full (non-short-circuit) build returns a
graph and every (distinct) goal literal is reachable in it, the
short-circuit build also returns a graph — with the same attached cache —
and yields the same `h_levelsum` value. -/
theorem claim_C7_short_circuit_equivalence
    (p : AirCargoProblem) (s : List Bool) (serial : Bool) (fuel : Nat)
    (c : ProblemCache) (gf : PlanningGraph)
    (hndgoal : p.goal.Nodup)
    (hfull : mkPlanningGraph p none s serial false fuel = some (c, gf))
    (hreach : ∀ g ∈ p.goal, ∃ lvl ∈ gf.s_levels, PgNode_s.mk g true ∈ lvl) :
    ∃ gs : PlanningGraph,
      mkPlanningGraph p none s serial true fuel = some (c, gs) ∧
      h_levelsum gs.s_levels p.goal = h_levelsum gf.s_levels p.goal := by
  rcases hmc : mkCache p with _ | c0
  · simp [mkPlanningGraph, hmc] at hfull
  · have hfull2 : create_graph serial false c0.actions_for_preconds c0.goal_nodes
        (decode_state s p.state_map) fuel = some gf ∧ c = c0 := by
      simp only [mkPlanningGraph, hmc] at hfull
      rcases hg : create_graph serial false c0.actions_for_preconds c0.goal_nodes
          (decode_state s p.state_map) fuel with _ | g'
      · rw [hg] at hfull; exact Option.noConfusion hfull
      · rw [hg] at hfull
        simp only [Option.some.injEq, Prod.mk.injEq] at hfull
        exact ⟨by rw [hfull.2], hfull.1.symm⟩
    obtain ⟨hcg, rfl⟩ := hfull2
    have hm : precond_to_action p.state_map (p.actions_list ++ noop_actions p.state_map) =
        some c.actions_for_preconds := by
      unfold mkCache at hmc
      rcases hpre : precond_to_action p.state_map
          (p.actions_list ++ noop_actions p.state_map) with _ | m
      · rw [hpre] at hmc; exact Option.noConfusion hmc
      · rw [hpre] at hmc
        simp only [Option.some.injEq] at hmc
        subst hmc
        rfl
    have hgn : c.goal_nodes = (p.goal.map (fun g => PgNode_s.mk g true)).foldl linsert [] := by
      unfold mkCache at hmc
      rcases hpre : precond_to_action p.state_map
          (p.actions_list ++ noop_actions p.state_map) with _ | m
      · rw [hpre] at hmc; exact Option.noConfusion hmc
      · rw [hpre] at hmc
        simp only [Option.some.injEq] at hmc
        subst hmc
        rfl
    unfold create_graph at hcg
    obtain ⟨t, ht, hlvf⟩ := create_graph_loop_full_trace serial p.state_map
      (p.actions_list ++ noop_actions p.state_map) c.actions_for_preconds
      c.goal_nodes hm fuel _ _ _ gf hcg
    obtain ⟨gs, hgs, t', r, hlvs, htr, hdis⟩ :=
      create_graph_loop_short_of_trace serial c.actions_for_preconds c.goal_nodes
        fuel (s0_nodes (decode_state s p.state_map)) []
        { s_levels := [s0_nodes (decode_state s p.state_map)], a_levels := []
          s_mutex := [[]], a_mutex := [] } t ht
    have hgs2 : create_graph serial true c.actions_for_preconds c.goal_nodes
        (decode_state s p.state_map) fuel = some gs := by
      unfold create_graph
      exact hgs
    refine ⟨gs, ?_, ?_⟩
    · simp only [mkPlanningGraph, hmc]
      rw [hgs2]
    · have hlvf' : gf.s_levels = [s0_nodes (decode_state s p.state_map)] ++ t := hlvf
      have hlvs' : gs.s_levels = [s0_nodes (decode_state s p.state_map)] ++ t' := hlvs
      have hndf : ∀ lvl ∈ gf.s_levels, lvl.Nodup := by
        rw [hlvf']
        intro lvl hlvl
        rcases List.mem_cons.1 (by simpa using hlvl) with rfl | hlvl2
        · exact s0_nodes_nodup _
        · exact sTrace_levels_nodup _ _ _ _ ht lvl hlvl2
      have hnds : ∀ lvl ∈ gs.s_levels, lvl.Nodup := by
        rw [hlvs']
        intro lvl hlvl
        rcases List.mem_cons.1 (by simpa using hlvl) with rfl | hlvl2
        · exact s0_nodes_nodup _
        · refine sTrace_levels_nodup _ _ _ _ ht lvl ?_
          rw [htr, List.mem_append]
          exact Or.inl hlvl2
      rcases hdis with rfl | ⟨l, hl, hsub⟩
      · have hsame : gs.s_levels = gf.s_levels := by
          rw [hlvs', hlvf', htr]
          simp
        rw [hsame]
      · have hgoal_in : ∀ g ∈ p.goal, PgNode_s.mk g true ∈ l := by
          intro g hg
          have hmemgn : PgNode_s.mk g true ∈ c.goal_nodes := by
            rw [hgn, mem_foldl_linsert]
            exact Or.inr (List.mem_map_of_mem _ hg)
          exact (lsubset_iff _ _).1 hsub _ hmemgn
        have hlmem : l ∈ gs.s_levels := by
          rw [hlvs', List.mem_append]
          exact Or.inr (List.mem_of_mem_getLast? hl)
        have hreach_s : ∀ g ∈ p.goal, ∃ lvl ∈ gs.s_levels, PgNode_s.mk g true ∈ lvl :=
          fun g hg => ⟨l, hlmem, hgoal_in g hg⟩
        have hspec_f := (h_levelsum_spec gf.s_levels p.goal hndgoal hndf).1 hreach
        have hspec_s := (h_levelsum_spec gs.s_levels p.goal hndgoal hnds).1 hreach_s
        rw [hspec_f, hspec_s]
        have happ : gf.s_levels = gs.s_levels ++ r := by
          rw [hlvf', hlvs', htr]
          simp
        have hcongr : ∀ g ∈ p.goal,
            (firstLevel gs.s_levels (PgNode_s.mk g true)).getD 0 =
            (firstLevel gf.s_levels (PgNode_s.mk g true)).getD 0 := by
          intro g hg
          have hsome := firstLevel_isSome_of_mem gs.s_levels _ (hreach_s g hg)
          rw [happ, firstLevel_append_left _ _ _ hsome]
        rw [List.map_congr_left hcongr]

/-- A-level 0 of the planning graph built from `air_cargo_p1`'s initial
state. -/
def p1iA0 : List PlanAction :=
  (add_action_level_full p1cache.actions_for_preconds s0p1).getD []

/-- S-level 1 of that graph. -/
def p1iS1 : List PgNode_s := add_literal_level p1iA0

set_option maxRecDepth 40000 in
lemma p1_init_step1 :
    add_action_level_full p1cache.actions_for_preconds s0p1 = some p1iA0 := by decide

set_option maxRecDepth 40000 in
lemma p1_init_ne : lseteq p1iS1 s0p1 = false := by decide

set_option maxRecDepth 40000 in
lemma p1_init_crash :
    candidate_actions p1cache.actions_for_preconds p1iS1 = none := by decide

/-- Building the planning graph for `air_cargo_p1` from its initial state
without the short-circuit flag raises `KeyError` at level 1 (S1 contains
remove-effect literals such as `¬At(C1, P1)` that are outside the state
map), whatever the fuel. -/
lemma p1_init_build_none :
    ∀ fuel,
      mkPlanningGraph air_cargo_p1 none air_cargo_p1.initial_state_TF true false fuel =
        none := by
  intro fuel
  have hc : mkCache air_cargo_p1 = some p1cache := by decide
  simp only [mkPlanningGraph, hc]
  have hg : create_graph true false p1cache.actions_for_preconds p1cache.goal_nodes
      (decode_state air_cargo_p1.initial_state_TF air_cargo_p1.state_map) fuel = none := by
    unfold create_graph
    have hs0 :
        s0_nodes (decode_state air_cargo_p1.initial_state_TF air_cargo_p1.state_map) =
          s0p1 := rfl
    rw [hs0]
    cases fuel with
    | zero => rw [create_graph_loop]
    | succ n =>
        rw [create_graph_loop_succ_full true p1cache.actions_for_preconds
          p1cache.goal_nodes n s0p1 [] _ p1iA0 p1_init_step1 p1_init_ne]
        exact create_graph_loop_none_of_candidate_none true false _ _ n p1iS1 _ _
          p1_init_crash
  rw [hg]

/-- The graph the short-circuit builder produces for `air_cargo_p1`'s
initial state. -/
def p1shortBuild : ProblemCache × PlanningGraph :=
  (mkPlanningGraph air_cargo_p1 none air_cargo_p1.initial_state_TF true true 30).getD
    (⟨[], [], []⟩, ⟨[], [], [], []⟩)

set_option maxRecDepth 40000 in
/-- C7 counterexample: on `air_cargo_p1`'s initial state both goal nodes are
reachable — they already appear in S-level 1, which the short-circuit build
reaches and returns, giving `h_levelsum = 2` — yet the full (non
short-circuit) build raises `KeyError` for every fuel bound, so the two
builder modes cannot yield the same `h_levelsum` as claimed. -/
theorem claim_C7_counterexample_full_build_raises :
    air_cargo_p1.goal.all (fun g => decide (PgNode_s.mk g true ∈ p1iS1)) = true ∧
    (∀ fuel,
      mkPlanningGraph air_cargo_p1 none air_cargo_p1.initial_state_TF true false fuel =
        none) ∧
    (mkPlanningGraph air_cargo_p1 none air_cargo_p1.initial_state_TF true true 30).isSome =
      true ∧
    p1iS1 ∈ p1shortBuild.2.s_levels ∧
    h_levelsum p1shortBuild.2.s_levels air_cargo_p1.goal = 2 :=
  ⟨by decide, p1_init_build_none, by decide, by decide, by decide⟩

/-- The graph the short-circuit builder produces for `probTiny`. -/
def tinyShortBuild : ProblemCache × PlanningGraph :=
  (mkPlanningGraph probTiny none [true] true true 10).getD (⟨[], [], []⟩, ⟨[], [], [], []⟩)

/-- Witness for the amended C7 theorem at a concrete input: on `probTiny`
the full build succeeds with all goals reachable, and the short-circuit
build yields the same `h_levelsum`. -/
theorem claim_C7_short_circuit_equivalence_witness :
    h_levelsum tinyShortBuild.2.s_levels probTiny.goal =
      h_levelsum tinyBuild.2.s_levels probTiny.goal := by
  obtain ⟨gs, hgs, hsum⟩ := claim_C7_short_circuit_equivalence probTiny [true] true 10
    tinyBuild.1 tinyBuild.2 (by decide) (by decide) (by decide)
  have hts : tinyShortBuild = (tinyBuild.1, gs) := by
    unfold tinyShortBuild
    rw [hgs]
    rfl
  rw [hts]
  exact hsum
